import Mathlib

/-!
Verification of the `map` module of a log-structured key-value store for
NOR-flash devices (`src/map.rs`).

The flash device, the page arithmetic and the page-state codec live outside
the given sources (they are only called by `map.rs`); they are modelled from
the specification (§3.1-§3.2, §4.1-§4.2, §6.1) and carry doc comments saying
so.  Everything else is a direct shallow embedding of `map.rs`:

* machine integers (`u32`, `usize`) become `Nat`, with truncating/saturating
  subtraction matching the places the source subtracts;
* the `NorFlash` driver becomes a total function from byte address to byte
  value, together with an explicit trace of driver operations (`FlashOp`)
  so that frame and ordering properties can be stated;
* the caller-supplied item codec (`StorageItem`) becomes an explicit
  `StorageCodec` record of pure functions;
* Rust panics (the `assert!` lines at the public entry points) become the
  `none` case of an `Option` result;
* the lazy item-stream iterator of `read_page_items` becomes a step function
  plus a fuel-indexed driver; fuel exhaustion (which corresponds to a
  non-terminating source loop, possible only for a codec that succeeds
  without consuming input) is mapped to `Corrupted`.

In the source the migration loop of `store_item_inner` pulls items lazily
from the buffer page while writing to the target page; since pages occupy
disjoint address ranges, those writes never touch the bytes the reader
still has to fetch, so the embedding reads the buffer page's items up
front and then folds the migration over the resulting list.
-/

set_option maxHeartbeats 1000000
set_option maxRecDepth 16384

namespace SeqStorage

/-- A flash device is modelled as a total function from byte address to byte
value.  The erased state of NOR flash is the byte 0xFF. -/
def Flash : Type := Nat → Nat

/-- Modelled from the spec: the byte-granular `read` of the flash driver
contract (§6.1), which is not part of the given sources.  Returns the `len`
bytes starting at `addr`. -/
def flashRead (f : Flash) (addr len : Nat) : List Nat :=
  (List.range len).map fun i => f (addr + i)

/-- Modelled from the spec: the word-granular `write` of the flash driver
contract (§6.1), which is not part of the given sources.  The store only ever
writes into erased (all 0xFF) regions, so plain replacement is faithful. -/
def flashWrite (f : Flash) (addr : Nat) (bytes : List Nat) : Flash :=
  fun a => if addr ≤ a ∧ a < addr + bytes.length then bytes.getD (a - addr) 0xFF else f a

/-- Modelled from the spec: the page-aligned `erase` of the flash driver
contract (§6.1), which is not part of the given sources; it restores the
range `[a, b)` to all 0xFF. -/
def flashErase (f : Flash) (a b : Nat) : Flash :=
  fun x => if a ≤ x ∧ x < b then 0xFF else f x

/-- A flash driver operation, as recorded in execution traces. -/
inductive FlashOp where
  | read (addr len : Nat)
  | write (addr : Nat) (bytes : List Nat)
  | erase (a b : Nat)
deriving DecidableEq, Repr

/-- Whether an operation is a read. -/
def FlashOp.isRead : FlashOp → Bool
  | .read _ _ => true
  | _ => false

/-- Whether an operation is an erase. -/
def FlashOp.isErase : FlashOp → Bool
  | .erase _ _ => true
  | _ => false

/-- Whether an operation is a write. -/
def FlashOp.isWrite : FlashOp → Bool
  | .write _ _ => true
  | _ => false

/-- The effect of one driver operation on the flash contents. -/
def applyOp (f : Flash) : FlashOp → Flash
  | .read _ _ => f
  | .write addr bytes => flashWrite f addr bytes
  | .erase a b => flashErase f a b

/-- The effect of a trace of driver operations on the flash contents. -/
def applyTrace (f : Flash) (ops : List FlashOp) : Flash :=
  ops.foldl applyOp f

/-- The half-open flash address range `[start, stop)` handed to every public
call (`Range<u32>` in the source). -/
structure FRange where
  start : Nat
  stop : Nat
deriving DecidableEq, Repr

/-- Modelled from the spec: number of pages of the region (§3.1); the source's
`get_pages(..).count()`, which is not part of the given sources. -/
def page_count (rg : FRange) (E : Nat) : Nat := (rg.stop - rg.start) / E

/-- Modelled from the spec: start address of page `i` (§3.1); the source's
`calculate_page_address`, which is not part of the given sources. -/
def calculate_page_address (rg : FRange) (E i : Nat) : Nat := rg.start + i * E

/-- Modelled from the spec: end address of page `i` (§3.1); the source's
`calculate_page_end_address`, which is not part of the given sources. -/
def calculate_page_end_address (rg : FRange) (E i : Nat) : Nat := rg.start + (i + 1) * E

/-- Modelled from the spec: ring successor of page `i` (§4.1); the source's
`next_page`, which is not part of the given sources. -/
def next_page (rg : FRange) (E i : Nat) : Nat := (i + 1) % page_count rg E

/-- Modelled from the spec: ring predecessor of page `i` (§4.1); the source's
`previous_page`, which is not part of the given sources. -/
def previous_page (rg : FRange) (E i : Nat) : Nat :=
  (i + page_count rg E - 1) % page_count rg E

/-- Modelled from the spec: index of the page containing `addr` (§4.1); the
source's `calculate_page_index`, which is not part of the given sources. -/
def calculate_page_index (rg : FRange) (E addr : Nat) : Nat := (addr - rg.start) / E

/-- The three page states of §3.2. -/
inductive PageState where
  | Open
  | PartialOpen
  | Closed
deriving DecidableEq, Repr

/-- The source's `PageState::is_open`. -/
def PageState.is_open : PageState → Bool
  | .Open => true
  | _ => false

/-- The source's `PageState::is_closed`. -/
def PageState.is_closed : PageState → Bool
  | .Closed => true
  | _ => false

/-- First byte address of the data zone of page `i` (§3.2): the page start
plus one write word. -/
def pageDataStart (rg : FRange) (W E i : Nat) : Nat :=
  calculate_page_address rg E i + W

/-- One-past-the-end byte address of the data zone of page `i` (§3.2): the
page end minus one write word. -/
def pageDataEnd (rg : FRange) (W E i : Nat) : Nat :=
  calculate_page_end_address rg E i - W

/-- Modelled from the spec: classify a page by its header and footer words
(§4.2 `read_state`, the source's `get_page_state`, which is not part of the
given sources).  `none` is the Corrupted outcome (footer written while the
header is still erased). -/
def get_page_state (f : Flash) (rg : FRange) (W E i : Nat) : Option PageState :=
  let hdrErased := (flashRead f (calculate_page_address rg E i) W).all fun b => b == 0xFF
  let ftrErased :=
    (flashRead f (calculate_page_end_address rg E i - W) W).all fun b => b == 0xFF
  match hdrErased, ftrErased with
  | true, true => some .Open
  | false, true => some .PartialOpen
  | false, false => some .Closed
  | true, false => none

/-- The driver operations issued by one `get_page_state` call: a read of the
header word and a read of the footer word. -/
def get_page_state_ops (rg : FRange) (W E i : Nat) : List FlashOp :=
  [.read (calculate_page_address rg E i) W,
   .read (calculate_page_end_address rg E i - W) W]

/-- Modelled from the spec: the non-0xFF marker word written into a header or
footer (§4.2, §9 note its value is implementation-free; 0x00 is used). -/
def marker (W : Nat) : List Nat := List.replicate W 0

/-- Modelled from the spec: `close_page` (§4.2 `close`) writes the marker
into the footer word of page `i`; not part of the given sources. -/
def close_page (f : Flash) (rg : FRange) (W E i : Nat) : Flash × List FlashOp :=
  let addr := calculate_page_end_address rg E i - W
  (flashWrite f addr (marker W), [.write addr (marker W)])

/-- Modelled from the spec: `partial_close_page` (§4.2 `partial_close`)
writes the marker into the header word of page `i`; not part of the given
sources. -/
def partial_close_page (f : Flash) (rg : FRange) (W E i : Nat) : Flash × List FlashOp :=
  let addr := calculate_page_address rg E i
  (flashWrite f addr (marker W), [.write addr (marker W)])

/-- Modelled from the spec: the page indices examined by `find_first_page`
when scanning from offset `fromIdx` (§4.1's iterator over all `N` ring
indices starting from a given offset). -/
def ring_indices (rg : FRange) (E fromIdx : Nat) : List Nat :=
  (List.range (page_count rg E)).map fun o => (fromIdx + o) % page_count rg E

/-- Helper for `find_first_page`: scan the given indices in order for the
first page in state `st`.  The outer `none` propagates a Corrupted
`get_page_state`. -/
def find_first_aux (f : Flash) (rg : FRange) (W E : Nat) (st : PageState) :
    List Nat → Option (Option Nat) × List FlashOp
  | [] => (some none, [])
  | i :: rest =>
    match get_page_state f rg W E i with
    | none => (none, get_page_state_ops rg W E i)
    | some s =>
      if s = st then (some (some i), get_page_state_ops rg W E i)
      else
        let r := find_first_aux f rg W E st rest
        (r.1, get_page_state_ops rg W E i ++ r.2)

/-- Modelled from the spec: `find_first_page` (§4.2 `find_first`) returns the
lowest ring-offset page index from `fromIdx` whose state equals `st`, or
none; not part of the given sources.  The outer `none` propagates a
Corrupted page-state read. -/
def find_first_page (f : Flash) (rg : FRange) (W E fromIdx : Nat) (st : PageState) :
    Option (Option Nat) × List FlashOp :=
  find_first_aux f rg W E st (ring_indices rg E fromIdx)

/-- The source's `MAX_STORAGE_ITEM_SIZE`: the scratch-buffer dimension. -/
def MAX_STORAGE_ITEM_SIZE : Nat := 512

/-- The source's `MapError` (the `Storage` case carries no payload because
the modelled driver never fails). -/
inductive MapError (CErr : Type) where
  | Item (e : CErr)
  | Storage
  | FullStorage
  | Corrupted
  | BufferTooBig
  | BufferTooSmall
deriving DecidableEq, Repr

/-- The caller-supplied item codec: the source's `StorageItem` trait together
with `StorageItemError::is_buffer_too_small`.  `serialize_into` receives the
length of the scratch slice it may fill and returns the bytes it filled;
`deserialize_from` receives the readable window and returns the item and the
number of bytes it used. -/
structure StorageCodec (I K CErr : Type) where
  serialize_into : I → Nat → Except CErr (List Nat)
  deserialize_from : List Nat → Except CErr (I × Nat)
  key : I → K
  is_buffer_too_small : CErr → Bool

/-- Round `n` up to a multiple of the write size `W`, exactly as the source
does it (`if n % W > 0 { n += W - n % W }`). -/
def roundUp (W n : Nat) : Nat := if n % W > 0 then n + (W - n % W) else n

/-! ### The item stream reader (`read_page_items`, source lines 354-455)

The source produces a lazy iterator with three pieces of captured state: the
512-byte window `read_buffer`, the count `used_read_buffer` of consumed
window bytes, and `read_buffer_start_index_into_page`, the page-data offset
of the next item.  One call of the iterator closure becomes `readerStep`;
`readerRun` drives it with fuel. -/

/-- The captured state of the item-stream iterator. -/
structure RState where
  buf : List Nat
  used : Nat
  startIdx : Nat
deriving DecidableEq, Repr

/-- The source's `replenish_read_buffer!` macro: compact the unconsumed
suffix of the window to its front, refill the tail from the page (never past
the data-zone end), pad any leftover with 0xFF, and reset `used` to 0. -/
def replenish (f : Flash) (pds pde : Nat) (st : RState) : RState × List FlashOp :=
  let kept := st.buf.drop st.used
  let rStart := pds + st.startIdx + MAX_STORAGE_ITEM_SIZE - st.used
  let unread := pde - rStart
  let readLen := min unread st.used
  let bytes := flashRead f rStart readLen
  let buf := kept ++ bytes ++ List.replicate (st.used - readLen) 0xFF
  (⟨buf, 0, st.startIdx⟩, if readLen = 0 then [] else [FlashOp.read rStart readLen])

/-- One outcome of pulling the iterator once. -/
inductive RStep (I CErr : Type) where
  | yielded (item : I) (addr len : Nat) (st : RState)
  | finished
  | failed (e : MapError CErr)

/-- The body of one pull of the source iterator after the initial
whole-window-consumed replenish: stop if the unconsumed window is all 0xFF,
otherwise deserialize.  The source's retry loop can run its compaction
branch at most once (compaction resets `used_read_buffer` to 0, falsifying
its own guard), so the loop body is unrolled twice here. -/
def readerStepCore {I K CErr : Type} (codec : StorageCodec I K CErr) (W : Nat)
    (f : Flash) (pds pde : Nat) (st : RState) : RStep I CErr × List FlashOp :=
  if (st.buf.drop st.used).all (fun b => b == 0xFF) then (.finished, [])
  else
    match codec.deserialize_from (st.buf.drop st.used) with
    | .ok (item, used_bytes) =>
      let ub := roundUp W used_bytes
      (.yielded item (pds + st.startIdx) ub ⟨st.buf, st.used + ub, st.startIdx + ub⟩, [])
    | .error e =>
      if codec.is_buffer_too_small e ∧ 0 < st.used then
        let s1 := replenish f pds pde st
        let st1 := s1.1
        match codec.deserialize_from (st1.buf.drop st1.used) with
        | .ok (item, used_bytes) =>
          let ub := roundUp W used_bytes
          (.yielded item (pds + st1.startIdx) ub
            ⟨st1.buf, st1.used + ub, st1.startIdx + ub⟩, s1.2)
        | .error e2 => (.failed (.Item e2), s1.2)
      else (.failed (.Item e), [])

/-- One pull of the source iterator (the closure passed to
`core::iter::from_fn`): replenish if the whole window is consumed, then run
the step body. -/
def readerStep {I K CErr : Type} (codec : StorageCodec I K CErr) (W : Nat) (f : Flash)
    (pds pde : Nat) (st : RState) : RStep I CErr × List FlashOp :=
  let s0 := if st.used = st.buf.length then replenish f pds pde st else (st, [])
  let c := readerStepCore codec W f pds pde s0.1
  (c.1, s0.2 ++ c.2)

/-- How a run of the iterator ends: the erased tail was reached, an item
error surfaced, or the fuel ran out (the source loops forever in that
case; see the module comment). -/
inductive ReadEnd (CErr : Type) where
  | done
  | fail (e : MapError CErr)
  | noFuel
deriving Repr

/-- Drive the iterator: collect the yielded `(item, address, length)` tuples
in order, together with the way the stream ended and the trace of driver
operations issued. -/
def readerRun {I K CErr : Type} (codec : StorageCodec I K CErr) (W : Nat) (f : Flash)
    (pds pde : Nat) : Nat → RState → List (I × Nat × Nat) × ReadEnd CErr × List FlashOp
  | 0, _ => ([], .noFuel, [])
  | fuel + 1, st =>
    match readerStep codec W f pds pde st with
    | (.finished, ops) => ([], .done, ops)
    | (.failed e, ops) => ([], .fail e, ops)
    | (.yielded item addr len st2, ops) =>
      let r := readerRun codec W f pds pde fuel st2
      ((item, addr, len) :: r.1, r.2.1, ops ++ r.2.2)

/-- The iterator state after the source's set-up code (lines 365-381): a
window initialized to 0xFF whose prefix is filled with the first
`min(512, data-zone length)` bytes of the page's data zone. -/
def initReader (f : Flash) (pds pde : Nat) : RState × List FlashOp :=
  let len := min MAX_STORAGE_ITEM_SIZE (pde - pds)
  let bytes := flashRead f pds len
  (⟨bytes ++ List.replicate (MAX_STORAGE_ITEM_SIZE - len) 0xFF, 0, 0⟩, [.read pds len])

/-- The fuel handed to the reader by its two callers: enough for every step
of a stream whose successful deserializations consume at least one byte. -/
def readerFuel (rg : FRange) (W E i : Nat) : Nat :=
  pageDataEnd rg W E i - pageDataStart rg W E i + 2

/-- The source's `read_page_items`: the full run of the item stream of page
`page_index`, returning the yielded tuples, the way the stream ended and
the trace of driver operations. -/
def read_page_items {I K CErr : Type} (codec : StorageCodec I K CErr) (W E : Nat)
    (f : Flash) (rg : FRange) (page_index : Nat) :
    List (I × Nat × Nat) × ReadEnd CErr × List FlashOp :=
  let pds := pageDataStart rg W E page_index
  let pde := pageDataEnd rg W E page_index
  let s0 := initReader f pds pde
  let r := readerRun codec W f pds pde (readerFuel rg W E page_index) s0.1
  (r.1, r.2.1, s0.2 ++ r.2.2)

/-! ### The fetch procedure (`fetch_item` / `fetch_item_with_location`,
source lines 52-140) -/

/-- The `assert!` lines at the head of `fetch_item_with_location`
(source lines 67-72); `Rd` is the driver's `READ_SIZE`. -/
def fetch_preconds (rg : FRange) (W E Rd : Nat) : Bool :=
  (rg.start % E == 0) && (rg.stop % E == 0) &&
    decide (E * 2 ≤ rg.stop - rg.start) && decide (W * 3 ≤ E) && (Rd == 1)

/-- Source lines 74-101: locate the active tail.  `Except.ok none` is the
source's early `return Ok(None)` (all pages open, no items yet);
`Except.ok (some p)` starts the backward scan at page `p`. -/
def locate_tail {CErr : Type} (f : Flash) (rg : FRange) (W E : Nat) :
    Except (MapError CErr) (Option Nat) × List FlashOp :=
  match find_first_page f rg W E 0 .PartialOpen with
  | (none, ops) => (.error .Corrupted, ops)
  | (some (some p), ops) => (.ok (some p), ops)
  | (some none, ops) =>
    match find_first_page f rg W E 0 .Open with
    | (none, ops2) => (.error .Corrupted, ops ++ ops2)
    | (some none, ops2) => (.error .Corrupted, ops ++ ops2)
    | (some (some fop), ops2) =>
      let pp := previous_page rg E fop
      let pops := get_page_state_ops rg W E pp
      match get_page_state f rg W E pp with
      | none => (.error .Corrupted, ops ++ ops2 ++ pops)
      | some s =>
        if s.is_closed then (.ok (some pp), ops ++ ops2 ++ pops)
        else (.ok none, ops ++ ops2 ++ pops)

/-- Source lines 112-119: scan one page's items, remembering the last one
whose key equals the search key (later bytes are newer). -/
def scan_page_fold {I K CErr : Type} (codec : StorageCodec I K CErr) [DecidableEq K]
    (search_key : K) (items : List (I × Nat × Nat)) (acc : Option (I × Nat × Nat)) :
    Option (I × Nat × Nat) :=
  items.foldl (fun acc it => if codec.key it.1 = search_key then some it else acc) acc

/-- Source lines 111-137: the backward scan across closed pages.  The walk is
bounded by the first non-Closed page; the fuel handed to it by
`fetch_item_with_location` (one more than the page count) can therefore
never run out, and its exhaustion case is mapped to `Corrupted`. -/
def fetch_scan {I K CErr : Type} (codec : StorageCodec I K CErr) [DecidableEq K]
    (W E : Nat) (f : Flash) (rg : FRange) (search_key : K) :
    Nat → Nat → Option (I × Nat × Nat) →
      Except (MapError CErr) (Option (I × Nat × Nat)) × List FlashOp
  | 0, _, _ => (.error .Corrupted, [])
  | fuel + 1, current, newest =>
    let r := read_page_items codec W E f rg current
    match r.2.1 with
    | .fail e => (.error e, r.2.2)
    | .noFuel => (.error .Corrupted, r.2.2)
    | .done =>
      let newest2 := scan_page_fold codec search_key r.1 newest
      if newest2.isSome then (.ok newest2, r.2.2)
      else
        let pp := previous_page rg E current
        let pops := get_page_state_ops rg W E pp
        match get_page_state f rg W E pp with
        | none => (.error .Corrupted, r.2.2 ++ pops)
        | some s =>
          if s ≠ .Closed then (.ok none, r.2.2 ++ pops)
          else
            let rec_ := fetch_scan codec W E f rg search_key fuel pp newest2
            (rec_.1, r.2.2 ++ pops ++ rec_.2)

/-- The source's `fetch_item_with_location` (lines 62-140).  The outer
`none` is a panic of one of the `assert!` lines. -/
def fetch_item_with_location {I K CErr : Type} (codec : StorageCodec I K CErr)
    [DecidableEq K] (W E Rd : Nat) (f : Flash) (rg : FRange) (search_key : K) :
    Option (Except (MapError CErr) (Option (I × Nat × Nat)) × List FlashOp) :=
  if fetch_preconds rg W E Rd then
    some (match locate_tail f rg W E with
      | (.error e, ops) => (.error e, ops)
      | (.ok none, ops) => (.ok none, ops)
      | (.ok (some tail), ops) =>
        let r := fetch_scan codec W E f rg search_key (page_count rg E + 1) tail none
        (r.1, ops ++ r.2))
  else none

/-- The source's public `fetch_item` (lines 52-58): drop the location. -/
def fetch_item {I K CErr : Type} (codec : StorageCodec I K CErr) [DecidableEq K]
    (W E Rd : Nat) (f : Flash) (rg : FRange) (search_key : K) :
    Option (Except (MapError CErr) (Option I) × List FlashOp) :=
  (fetch_item_with_location codec W E Rd f rg search_key).map fun r =>
    (r.1.map (fun o => o.map fun it => it.1), r.2)

/-! ### The store procedure (`store_item` / `store_item_inner`,
source lines 145-352) -/

/-- The `assert!` lines at the head of `store_item` (source lines 150-156). -/
def store_preconds (rg : FRange) (W E Rd : Nat) : Bool :=
  (rg.start % E == 0) && (rg.stop % E == 0) &&
    decide (2 ≤ (rg.stop - rg.start) / E) && decide (W * 3 ≤ E) && (Rd == 1)

/-- Outcome of the fast-path attempt on the Partial-Open page: either
`store_item_inner` returns `r` at once, or the page has been closed and the
rotation continues with the given next page. -/
inductive FastOut (CErr : Type) where
  | finish (r : Except (MapError CErr) Unit)
  | rotate (ntpu : Nat)

/-- Source lines 184-241: the fast path.  Stream the Partial-Open page `p`
to find the first free address, serialize the item into a scratch buffer
limited to `min(512, data-zone-end - first-free)` bytes, and on success
write the word-rounded bytes there; a buffer-too-small from the codec
closes the page instead and hands the ring successor to the rotation. -/
def store_fast {I K CErr : Type} (codec : StorageCodec I K CErr) (W E : Nat)
    (f : Flash) (rg : FRange) (item : I) (p : Nat) :
    FastOut CErr × Flash × List FlashOp :=
  let pds := pageDataStart rg W E p
  let pde := pageDataEnd rg W E p
  let r := read_page_items codec W E f rg p
  match r.2.1 with
  | .fail e => (.finish (.error e), f, r.2.2)
  | .noFuel => (.finish (.error .Corrupted), f, r.2.2)
  | .done =>
    let last_start_address := r.1.foldl (fun _ it => it.2.1 + it.2.2) pds
    let available_bytes_in_page := pde - last_start_address
    match codec.serialize_into item
        (min MAX_STORAGE_ITEM_SIZE available_bytes_in_page) with
    | .ok bytes =>
      let ub := roundUp W bytes.length
      let wb := bytes ++ List.replicate (ub - bytes.length) 0xFF
      (.finish (.ok ()), flashWrite f last_start_address wb,
        r.2.2 ++ [.write last_start_address wb])
    | .error e =>
      if codec.is_buffer_too_small e then
        let c := close_page f rg W E p
        (.rotate (next_page rg E p), c.1, r.2.2 ++ c.2)
      else (.finish (.error (.Item e)), f, r.2.2)

/-- Source lines 274-310: the migration fold.  For each item streamed from
the buffer page, look up the newest version of its key; if that version's
address lies on the buffer page, copy its record to the running write
address of the target page and advance by the record length.  The fold
carries the flash, the write address and the trace; `none` propagates a
panic from the nested fetch. -/
def migrate_items {I K CErr : Type} (codec : StorageCodec I K CErr) [DecidableEq K]
    (W E Rd : Nat) (rg : FRange) (next_buffer_page : Nat) :
    List (I × Nat × Nat) → Flash → Nat →
      Option (Except (MapError CErr) Unit × Flash × Nat × List FlashOp)
  | [], f, wa => some (.ok (), f, wa, [])
  | it :: rest, f, wa =>
    match fetch_item_with_location codec W E Rd f rg (codec.key it.1) with
    | none => none
    | some (.error e, fops) => some (.error e, f, wa, fops)
    | some (.ok none, fops) => some (.error .Corrupted, f, wa, fops)
    | some (.ok (some loc), fops) =>
      let nva := loc.2.1
      let nvl := loc.2.2
      if calculate_page_index rg E nva = next_buffer_page then
        let bytes := flashRead f nva nvl
        let f2 := flashWrite f wa bytes
        match migrate_items codec W E Rd rg next_buffer_page rest f2 (wa + nvl) with
        | none => none
        | some (r, f3, wa3, ops3) =>
          some (r, f3, wa3, fops ++ [.read nva nvl, .write wa bytes] ++ ops3)
      else
        match migrate_items codec W E Rd rg next_buffer_page rest f wa with
        | none => none
        | some (r, f3, wa3, ops3) => some (r, f3, wa3, fops ++ ops3)

/-- Source lines 252-347: the rotation step.  `ntpu` is the source's
`next_page_to_use`.  `Except.ok ()` means the rotation finished (a page was
freshly partial-closed) and `store_item_inner` recurses on the returned
flash. -/
def store_rotate {I K CErr : Type} (codec : StorageCodec I K CErr) [DecidableEq K]
    (W E Rd : Nat) (rg : FRange) (f : Flash) (ntpu : Option Nat) :
    Option (Except (MapError CErr) Unit × Flash × List FlashOp) :=
  match ntpu with
  | some next_page_to_use =>
    let sops := get_page_state_ops rg W E next_page_to_use
    match get_page_state f rg W E next_page_to_use with
    | none => some (.error .Corrupted, f, sops)
    | some st =>
      if ¬ st.is_open then some (.error .Corrupted, f, sops)
      else
        let next_buffer_page := next_page rg E next_page_to_use
        let bops := get_page_state_ops rg W E next_buffer_page
        match get_page_state f rg W E next_buffer_page with
        | none => some (.error .Corrupted, f, sops ++ bops)
        | some nbs =>
          if ¬ nbs.is_open then
            let npwa := calculate_page_address rg E next_page_to_use + W
            let r := read_page_items codec W E f rg next_buffer_page
            match migrate_items codec W E Rd rg next_buffer_page r.1 f npwa with
            | none => none
            | some (.error e, f2, _, mops) =>
              some (.error e, f2, sops ++ bops ++ r.2.2 ++ mops)
            | some (.ok _, f2, _, mops) =>
              match r.2.1 with
              | .fail e => some (.error e, f2, sops ++ bops ++ r.2.2 ++ mops)
              | .noFuel => some (.error .Corrupted, f2, sops ++ bops ++ r.2.2 ++ mops)
              | .done =>
                let ea := calculate_page_address rg E next_buffer_page
                let eb := calculate_page_end_address rg E next_buffer_page
                let f3 := flashErase f2 ea eb
                let pc := partial_close_page f3 rg W E next_page_to_use
                some (.ok (), pc.1,
                  sops ++ bops ++ r.2.2 ++ mops ++ [.erase ea eb] ++ pc.2)
          else
            let pc := partial_close_page f rg W E next_page_to_use
            some (.ok (), pc.1, sops ++ bops ++ pc.2)
  | none =>
    match find_first_page f rg W E 0 .Open with
    | (none, fops) => some (.error .Corrupted, f, fops)
    | (some none, fops) => some (.error .Corrupted, f, fops)
    | (some (some first_open_page), fops) =>
      let pc := partial_close_page f rg W E first_open_page
      some (.ok (), pc.1, fops ++ pc.2)

/-- The source's `store_item_inner` (lines 160-351), driven by fuel; the
callers pass one more unit of fuel than the page count, so the source's
depth guard (`recursion_level == page count`, line 173) always fires before
the fuel runs out, and the fuel-0 case is unreachable. -/
def store_item_inner {I K CErr : Type} (codec : StorageCodec I K CErr) [DecidableEq K]
    (W E Rd : Nat) (rg : FRange) (item : I) :
    Nat → Nat → Flash → Option (Except (MapError CErr) Unit × Flash × List FlashOp)
  | _, 0, f => some (.error .FullStorage, f, [])
  | recursion_level, fuel + 1, f =>
    if recursion_level = page_count rg E then some (.error .FullStorage, f, [])
    else
      match find_first_page f rg W E 0 .PartialOpen with
      | (none, pops) => some (.error .Corrupted, f, pops)
      | (some (some p), pops) =>
        let fr := store_fast codec W E f rg item p
        match fr.1 with
        | .finish r => some (r, fr.2.1, pops ++ fr.2.2)
        | .rotate ntpu =>
          match store_rotate codec W E Rd rg fr.2.1 (some ntpu) with
          | none => none
          | some (.error e, f2, rops) => some (.error e, f2, pops ++ fr.2.2 ++ rops)
          | some (.ok _, f2, rops) =>
            match store_item_inner codec W E Rd rg item (recursion_level + 1) fuel f2 with
            | none => none
            | some (r, f3, ops3) => some (r, f3, pops ++ fr.2.2 ++ rops ++ ops3)
      | (some none, pops) =>
        match store_rotate codec W E Rd rg f none with
        | none => none
        | some (.error e, f2, rops) => some (.error e, f2, pops ++ rops)
        | some (.ok _, f2, rops) =>
          match store_item_inner codec W E Rd rg item (recursion_level + 1) fuel f2 with
          | none => none
          | some (r, f3, ops3) => some (r, f3, pops ++ rops ++ ops3)

/-- The source's public `store_item` (lines 145-159).  The outer `none` is a
panic of one of the `assert!` lines (or of a nested fetch). -/
def store_item {I K CErr : Type} (codec : StorageCodec I K CErr) [DecidableEq K]
    (W E Rd : Nat) (f : Flash) (rg : FRange) (item : I) :
    Option (Except (MapError CErr) Unit × Flash × List FlashOp) :=
  if store_preconds rg W E Rd then
    store_item_inner codec W E Rd rg item 0 (page_count rg E + 1) f
  else none

/-! ### A concrete codec (the `MockStorageItem` of the source's tests,
lines 534-609), used to instantiate theorems at concrete inputs -/

/-- The test suite's `MockStorageItem`: a byte key and a byte-list value. -/
structure MockItem where
  key : Nat
  value : List Nat
deriving DecidableEq, Repr

/-- The test suite's `MockStorageItemError`. -/
inductive MockErr where
  | BufferTooSmall
  | InvalidKey
  | BufferTooBig
deriving DecidableEq, Repr

/-- The test suite's codec: an item serializes to `[key, len, value...]`. -/
def mockCodec : StorageCodec MockItem Nat MockErr where
  serialize_into it cap :=
    if cap < 2 + it.value.length then .error .BufferTooSmall
    else if 255 < it.value.length then .error .BufferTooBig
    else if it.key == 0xFF then .error .InvalidKey
    else .ok (it.key :: it.value.length :: it.value)
  deserialize_from buf :=
    if buf.length < 2 then .error .BufferTooSmall
    else if buf.getD 0 0 == 0xFF then .error .InvalidKey
    else
      let len := buf.getD 1 0
      if buf.length < 2 + len then .error .BufferTooSmall
      else .ok (⟨buf.getD 0 0, (buf.drop 2).take len⟩, 2 + len)
  key it := it.key
  is_buffer_too_small e :=
    match e with
    | .BufferTooSmall => true
    | _ => false

/-- The fully erased flash. -/
def freshFlash : Flash := fun _ => 0xFF

/-- A flash whose low addresses hold the given bytes and whose remaining
cells are erased; used to build concrete flash states. -/
def flashOfList (l : List Nat) : Flash := fun a => l.getD a 0xFF

/-- Every operation of the trace is a read. -/
def AllReads (ops : List FlashOp) : Prop := ∀ op ∈ ops, op.isRead = true

/-- A concrete two-page flash (one word per write, 8-byte pages): page 0 is
Open (fully erased) and page 1 is Closed, holding one record for key 3. -/
def cexFlash : Flash :=
  flashOfList ([0xFF, 0xFF, 0xFF, 0xFF, 0xFF, 0xFF, 0xFF, 0xFF] ++
    [0x00, 3, 1, 9, 0xFF, 0xFF, 0xFF, 0x00])

/-- The mirror image of `cexFlash`: page 0 Closed with one record for key 3,
page 1 Open. -/
def cex2Flash : Flash :=
  flashOfList ([0x00, 3, 1, 9, 0xFF, 0xFF, 0xFF, 0x00] ++
    [0xFF, 0xFF, 0xFF, 0xFF, 0xFF, 0xFF, 0xFF, 0xFF])

/-- The `(address, bytes)` pairs of the write operations of a trace, in
order. -/
def writePairs (ops : List FlashOp) : List (Nat × List Nat) :=
  ops.filterMap fun op =>
    match op with
    | .write a bs => some (a, bs)
    | _ => none

/-- The writes form one consecutive run starting at `wa`: each write starts
where the previous one ended. -/
def consecFrom : Nat → List (Nat × List Nat) → Prop
  | _, [] => True
  | wa, (a, bs) :: rest => a = wa ∧ consecFrom (a + bs.length) rest

/-- A two-page flash whose page 0 is Partial-Open (header marker written,
footer erased) holding one record `[3, 1, 9]`, and page 1 is Open. -/
def pOpenFlash : Flash := flashOfList [0x00, 3, 1, 9, 0xFF, 0xFF, 0xFF, 0xFF]

/-- All bytes touched by read operations of the trace lie in `[pds, pde)`. -/
def ReadsInZone (pds pde : Nat) (ops : List FlashOp) : Prop :=
  ∀ a l, FlashOp.read a l ∈ ops → ∀ x, a ≤ x → x < a + l → pds ≤ x ∧ x < pde

/-! ### Representation of well-formed pages

`recBytes` is the on-flash footprint of one record: its serialized bytes
padded with 0xFF up to a multiple of the write size.  A well-formed page's
data zone is a concatenation of record footprints followed by an erased
tail.  `wind page b v` is the window of `v` bytes the reader sees from
page offset `b`, padded with 0xFF past the end of the page. -/

/-- The on-flash footprint of a record `(item, serialized bytes)`. -/
def recBytes (W : Nat) (r : I × List Nat) : List Nat :=
  r.2 ++ List.replicate (roundUp W r.2.length - r.2.length) 0xFF

/-- The concatenated footprints of a record list. -/
def recsBytes {I : Type} (W : Nat) (rs : List (I × List Nat)) : List Nat :=
  (rs.map (recBytes W)).flatten

/-- The `(item, address, length)` tuples the reader yields for records laid
out from address `a`. -/
def recTuples {I : Type} (W : Nat) : Nat → List (I × List Nat) → List (I × Nat × Nat)
  | _, [] => []
  | a, r :: rest =>
    (r.1, a, roundUp W r.2.length) :: recTuples W (a + roundUp W r.2.length) rest

/-- A record the codec handles correctly: nonempty, not starting with 0xFF,
fitting the 512-byte window, deserializing to exactly the item and its byte
count whatever follows it, and reported buffer-too-small on every strict
prefix. -/
structure GoodRec {I K CErr : Type} (codec : StorageCodec I K CErr) (W : Nat)
    (r : I × List Nat) : Prop where
  ne_nil : r.2 ≠ []
  head_ne : ∀ b, r.2.head? = some b → b ≠ 0xFF
  le_max : roundUp W r.2.length ≤ MAX_STORAGE_ITEM_SIZE
  deser_ok : ∀ rest, codec.deserialize_from (r.2 ++ rest) = .ok (r.1, r.2.length)
  deser_cut : ∀ j, j < r.2.length → ∃ e, codec.deserialize_from (r.2.take j) = .error e ∧
    codec.is_buffer_too_small e = true

/-- The reader's window: `v` bytes of `page` from offset `b`, padded with
0xFF past the end of the page. -/
def wind (page : List Nat) (b v : Nat) : List Nat :=
  (page.drop b ++ List.replicate v 0xFF).take v

/-- A well-formed page: its data zone holds the footprints of `rs` followed
by an erased tail, and every record is handled correctly by the codec. -/
def PageRep {I K CErr : Type} (codec : StorageCodec I K CErr) (W E : Nat) (f : Flash)
    (rg : FRange) (i : Nat) (rs : List (I × List Nat)) : Prop :=
  (recsBytes W rs).length ≤ pageDataEnd rg W E i - pageDataStart rg W E i ∧
  flashRead f (pageDataStart rg W E i) (pageDataEnd rg W E i - pageDataStart rg W E i) =
    recsBytes W rs ++
      List.replicate ((pageDataEnd rg W E i - pageDataStart rg W E i) -
        (recsBytes W rs).length) 0xFF ∧
  ∀ r ∈ rs, GoodRec codec W r

/-- A sequence of `store_item` calls, each required to succeed: the flash
after folding the whole list, or `none` if any call panics or returns an
error. -/
def storeSeq {I K CErr : Type} (codec : StorageCodec I K CErr) [DecidableEq K]
    (W E Rd : Nat) (rg : FRange) : List I → Flash → Option Flash
  | [], f => some f
  | it :: rest, f =>
    match store_item codec W E Rd f rg it with
    | some (.ok _, f2, _) => storeSeq codec W E Rd rg rest f2
    | _ => none

/-- The last element of the list whose key is `sk`: the value the map is
specified to return for `sk` after the list has been stored in order. -/
def lookupLast {I K : Type} [DecidableEq K] (key : I → K) (sk : K) : List I → Option I
  | [] => none
  | it :: rest =>
    match lookupLast key sk rest with
    | some v => some v
    | none => if key it = sk then some it else none

/-! ### Helper lemmas -/

theorem fetch_preconds_iff (rg : FRange) (W E Rd : Nat) :
    fetch_preconds rg W E Rd = true ↔
      (rg.start % E = 0 ∧ rg.stop % E = 0 ∧ E * 2 ≤ rg.stop - rg.start ∧
        W * 3 ≤ E ∧ Rd = 1) := by
  simp [fetch_preconds, and_assoc]

theorem store_preconds_iff (rg : FRange) (W E Rd : Nat) (hE : 0 < E) :
    store_preconds rg W E Rd = true ↔
      (rg.start % E = 0 ∧ rg.stop % E = 0 ∧ E * 2 ≤ rg.stop - rg.start ∧
        W * 3 ≤ E ∧ Rd = 1) := by
  simp [store_preconds, and_assoc, Nat.le_div_iff_mul_le hE, Nat.mul_comm]

theorem store_preconds_imp_fetch (rg : FRange) (W E Rd : Nat) (hE : 0 < E)
    (h : store_preconds rg W E Rd = true) : fetch_preconds rg W E Rd = true :=
  (fetch_preconds_iff rg W E Rd).mpr ((store_preconds_iff rg W E Rd hE).mp h)

theorem fetch_item_with_location_isSome {I K CErr : Type}
    (codec : StorageCodec I K CErr) [DecidableEq K] (W E Rd : Nat) (f : Flash)
    (rg : FRange) (k : K) (hp : fetch_preconds rg W E Rd = true) :
    (fetch_item_with_location codec W E Rd f rg k).isSome := by
  simp [fetch_item_with_location, hp]

theorem migrate_items_isSome {I K CErr : Type} (codec : StorageCodec I K CErr)
    [DecidableEq K] (W E Rd : Nat) (rg : FRange) (nb : Nat)
    (hp : fetch_preconds rg W E Rd = true) :
    ∀ (l : List (I × Nat × Nat)) (f : Flash) (wa : Nat),
      (migrate_items codec W E Rd rg nb l f wa).isSome := by
  intro l
  induction l with
  | nil => intro f wa; simp [migrate_items]
  | cons it rest ih =>
    intro f wa
    obtain ⟨r, hr⟩ := Option.isSome_iff_exists.mp
      (fetch_item_with_location_isSome codec W E Rd f rg (codec.key it.1) hp)
    obtain ⟨res, fops⟩ := r
    simp only [migrate_items, hr]
    match res with
    | .error e => simp
    | .ok none => simp
    | .ok (some loc) =>
      simp only
      split
      · obtain ⟨r2, hr2⟩ := Option.isSome_iff_exists.mp
          (ih (flashWrite f wa (flashRead f loc.2.1 loc.2.2)) (wa + loc.2.2))
        rw [hr2]
        obtain ⟨a, b, c, d⟩ := r2
        simp
      · obtain ⟨r2, hr2⟩ := Option.isSome_iff_exists.mp (ih f wa)
        rw [hr2]
        obtain ⟨a, b, c, d⟩ := r2
        simp

theorem store_rotate_isSome {I K CErr : Type} (codec : StorageCodec I K CErr)
    [DecidableEq K] (W E Rd : Nat) (rg : FRange) (f : Flash) (ntpu : Option Nat)
    (hp : fetch_preconds rg W E Rd = true) :
    (store_rotate codec W E Rd rg f ntpu).isSome := by
  match ntpu with
  | none =>
    simp only [store_rotate]
    rcases h : find_first_page f rg W E 0 .Open with ⟨r, ops⟩
    match r with
    | none => simp
    | some none => simp
    | some (some fop) => simp
  | some nptu =>
    simp only [store_rotate]
    match get_page_state f rg W E nptu with
    | none => simp
    | some st =>
      simp only
      split
      · simp
      · match get_page_state f rg W E (next_page rg E nptu) with
        | none => simp
        | some nbs =>
          simp only
          split
          · obtain ⟨r2, hr2⟩ := Option.isSome_iff_exists.mp
              (migrate_items_isSome codec W E Rd rg (next_page rg E nptu) hp
                (read_page_items codec W E f rg (next_page rg E nptu)).1 f
                (calculate_page_address rg E nptu + W))
            rw [hr2]
            obtain ⟨res, f2, wa, mops⟩ := r2
            match res with
            | .error e => simp
            | .ok _ =>
              simp only
              match (read_page_items codec W E f rg (next_page rg E nptu)).2.1 with
              | .fail e => simp
              | .noFuel => simp
              | .done => simp
          · simp

theorem store_item_inner_isSome {I K CErr : Type} (codec : StorageCodec I K CErr)
    [DecidableEq K] (W E Rd : Nat) (rg : FRange) (item : I)
    (hp : fetch_preconds rg W E Rd = true) :
    ∀ (fuel level : Nat) (f : Flash),
      (store_item_inner codec W E Rd rg item level fuel f).isSome := by
  intro fuel
  induction fuel with
  | zero => intro level f; simp [store_item_inner]
  | succ fuel ih =>
    intro level f
    simp only [store_item_inner]
    split
    · simp
    · rcases hff : find_first_page f rg W E 0 .PartialOpen with ⟨r, pops⟩
      match r with
      | none => simp
      | some (some p) =>
        simp only
        match hfr : (store_fast codec W E f rg item p).1 with
        | .finish res => simp
        | .rotate ntpu =>
          simp only
          obtain ⟨r2, hr2⟩ := Option.isSome_iff_exists.mp
            (store_rotate_isSome codec W E Rd rg
              (store_fast codec W E f rg item p).2.1 (some ntpu) hp)
          rw [hr2]
          obtain ⟨res, f2, rops⟩ := r2
          match res with
          | .error e => simp
          | .ok _ =>
            simp only
            obtain ⟨r3, hr3⟩ := Option.isSome_iff_exists.mp (ih (level + 1) f2)
            rw [hr3]
            obtain ⟨a, b, c⟩ := r3
            simp
      | some none =>
        simp only
        obtain ⟨r2, hr2⟩ := Option.isSome_iff_exists.mp
          (store_rotate_isSome codec W E Rd rg f none hp)
        rw [hr2]
        obtain ⟨res, f2, rops⟩ := r2
        match res with
        | .error e => simp
        | .ok _ =>
          simp only
          obtain ⟨r3, hr3⟩ := Option.isSome_iff_exists.mp (ih (level + 1) f2)
          rw [hr3]
          obtain ⟨a, b, c⟩ := r3
          simp

/-! ### Claim theorems -/

/-- Claim C10: both public entry points enforce their preconditions by
panicking (modelled as the `none` result) rather than by returning an
error: `fetch_item` and `store_item` panic exactly when the flash range's
start or end is not a multiple of the erase size, or the range spans fewer
than two pages, or the erase size is less than three times the write size,
or the read size is not 1. -/
theorem claim_C10 {I K CErr : Type} (codec : StorageCodec I K CErr) [DecidableEq K]
    (W E Rd : Nat) (rg : FRange) (f : Flash) (k : K) (it : I) (hE : 0 < E) :
    (fetch_item codec W E Rd f rg k = none ↔
      (rg.start % E ≠ 0 ∨ rg.stop % E ≠ 0 ∨ rg.stop - rg.start < 2 * E ∨
        E < 3 * W ∨ Rd ≠ 1)) ∧
    (store_item codec W E Rd f rg it = none ↔
      (rg.start % E ≠ 0 ∨ rg.stop % E ≠ 0 ∨ rg.stop - rg.start < 2 * E ∨
        E < 3 * W ∨ Rd ≠ 1)) := by
  have hdisj : ∀ b : Bool,
      (b = true ↔ (rg.start % E = 0 ∧ rg.stop % E = 0 ∧ E * 2 ≤ rg.stop - rg.start ∧
        W * 3 ≤ E ∧ Rd = 1)) →
      (b = false ↔ (rg.start % E ≠ 0 ∨ rg.stop % E ≠ 0 ∨ rg.stop - rg.start < 2 * E ∨
        E < 3 * W ∨ Rd ≠ 1)) := by
    intro b hb
    rw [← Bool.not_eq_true, hb]
    push_neg
    constructor
    · intro h
      by_cases h1 : rg.start % E = 0
      · by_cases h2 : rg.stop % E = 0
        · by_cases h3 : E * 2 ≤ rg.stop - rg.start
          · by_cases h4 : W * 3 ≤ E
            · exact Or.inr (Or.inr (Or.inr (Or.inr (h h1 h2 h3 h4))))
            · exact Or.inr (Or.inr (Or.inr (Or.inl (by omega))))
          · exact Or.inr (Or.inr (Or.inl (by omega)))
        · exact Or.inr (Or.inl h2)
      · exact Or.inl h1
    · intro h h1 h2 h3 h4
      rcases h with h | h | h | h | h
      · exact absurd h1 h
      · exact absurd h2 h
      · omega
      · omega
      · exact h
  constructor
  · have hiff := hdisj (fetch_preconds rg W E Rd) (fetch_preconds_iff rg W E Rd)
    rw [← hiff]
    unfold fetch_item fetch_item_with_location
    cases h : fetch_preconds rg W E Rd <;> simp [h]
  · have hiff := hdisj (store_preconds rg W E Rd) (store_preconds_iff rg W E Rd hE)
    rw [← hiff]
    unfold store_item
    cases h : store_preconds rg W E Rd
    · simp
    · simp only [if_pos rfl, reduceIte]
      have hs := store_item_inner_isSome codec W E Rd rg it
        (store_preconds_imp_fetch rg W E Rd hE h) (page_count rg E + 1) 0 f
      constructor
      · intro hnone
        rw [hnone] at hs
        simp at hs
      · intro hfalse
        simp at hfalse

/-- Witness for C10 at a concrete configuration: one word per write, 8-byte
pages, two pages, read size 1, the test codec, a fresh flash. -/
theorem claim_C10_witness :
    (fetch_item mockCodec 1 8 1 freshFlash ⟨0, 16⟩ (0 : Nat) = none ↔
      ((0 : Nat) % 8 ≠ 0 ∨ (16 : Nat) % 8 ≠ 0 ∨ (16 : Nat) - 0 < 2 * 8 ∨
        (8 : Nat) < 3 * 1 ∨ (1 : Nat) ≠ 1)) ∧
    (store_item mockCodec 1 8 1 freshFlash ⟨0, 16⟩ ⟨0, [5]⟩ = none ↔
      ((0 : Nat) % 8 ≠ 0 ∨ (16 : Nat) % 8 ≠ 0 ∨ (16 : Nat) - 0 < 2 * 8 ∨
        (8 : Nat) < 3 * 1 ∨ (1 : Nat) ≠ 1)) :=
  claim_C10 mockCodec 1 8 1 ⟨0, 16⟩ freshFlash 0 ⟨0, [5]⟩ (by decide)

/-- Claim C4: when the fetch path finds no Partial-Open page: if a first
Open page exists and its ring-predecessor is Closed, that predecessor is the
page the backward scan starts from; if the predecessor is not Closed the log
is empty and `fetch_item` returns `Ok(None)`; and if no Open page exists at
all `fetch_item` returns the `Corrupted` error. -/
theorem claim_C4 {I K CErr : Type} (codec : StorageCodec I K CErr) [DecidableEq K]
    (W E Rd : Nat) (f : Flash) (rg : FRange) (k : K)
    (hp : fetch_preconds rg W E Rd = true)
    (hnp : (find_first_page f rg W E 0 .PartialOpen).1 = some none) :
    (∀ fop, (find_first_page f rg W E 0 .Open).1 = some (some fop) →
      get_page_state f rg W E (previous_page rg E fop) = some .Closed →
      ∃ ops, fetch_item_with_location codec W E Rd f rg k =
        some ((fetch_scan codec W E f rg k (page_count rg E + 1)
          (previous_page rg E fop) none).1, ops)) ∧
    (∀ fop s, (find_first_page f rg W E 0 .Open).1 = some (some fop) →
      get_page_state f rg W E (previous_page rg E fop) = some s →
      s ≠ .Closed →
      ∃ ops, fetch_item codec W E Rd f rg k = some (.ok none, ops)) ∧
    ((find_first_page f rg W E 0 .Open).1 = some none →
      ∃ ops, fetch_item codec W E Rd f rg k = some (.error .Corrupted, ops)) := by
  rcases hpp : find_first_page f rg W E 0 .PartialOpen with ⟨r0, ops0⟩
  rw [hpp] at hnp
  simp only at hnp
  subst hnp
  refine ⟨?_, ?_, ?_⟩
  · intro fop hfo hprev
    rcases hoo : find_first_page f rg W E 0 .Open with ⟨r1, ops1⟩
    rw [hoo] at hfo
    simp only at hfo
    subst hfo
    simp only [fetch_item_with_location, hp, if_true, locate_tail, hpp, hoo, hprev,
      PageState.is_closed]
    exact ⟨_, rfl⟩
  · intro fop s hfo hprev hs
    rcases hoo : find_first_page f rg W E 0 .Open with ⟨r1, ops1⟩
    rw [hoo] at hfo
    simp only at hfo
    subst hfo
    have hsc : s.is_closed = false := by cases s <;> simp [PageState.is_closed] at hs ⊢
    simp only [fetch_item, fetch_item_with_location, hp, if_true, locate_tail, hpp, hoo,
      hprev, hsc, Bool.false_eq_true, if_false, Option.map_some]
    exact ⟨_, rfl⟩
  · intro hfo
    rcases hoo : find_first_page f rg W E 0 .Open with ⟨r1, ops1⟩
    rw [hoo] at hfo
    simp only at hfo
    subst hfo
    simp only [fetch_item, fetch_item_with_location, hp, if_true, locate_tail, hpp, hoo,
      Option.map_some]
    exact ⟨_, rfl⟩

/-- Witness for C4: two 8-byte pages, page 0 Open and page 1 Open on a fresh
flash, so the no-Partial-Open hypotheses hold and the empty-log conjunct
applies, giving `Ok(None)`. -/
theorem claim_C4_witness :
    ∃ ops, fetch_item mockCodec 1 8 1 freshFlash ⟨0, 16⟩ (0 : Nat) =
      some (.ok none, ops) :=
  (claim_C4 mockCodec 1 8 1 freshFlash ⟨0, 16⟩ 0 (by decide) (by decide)).2.1
    0 .Open (by decide) (by decide) (by decide)

theorem allReads_append {a b : List FlashOp} (ha : AllReads a) (hb : AllReads b) :
    AllReads (a ++ b) := by
  intro op hop
  rcases List.mem_append.mp hop with h | h
  · exact ha op h
  · exact hb op h

theorem allReads_applyTrace {ops : List FlashOp} (h : AllReads ops) :
    ∀ g : Flash, applyTrace g ops = g := by
  induction ops with
  | nil => intro g; rfl
  | cons op rest ih =>
    intro g
    have hop := h op (List.mem_cons_self op rest)
    have hrest : AllReads rest := fun o ho => h o (List.mem_cons_of_mem op ho)
    match op, hop with
    | .read a l, _ => exact ih hrest g

theorem allReads_state_ops (rg : FRange) (W E i : Nat) :
    AllReads (get_page_state_ops rg W E i) := by
  intro op hop
  simp [get_page_state_ops] at hop
  rcases hop with h | h <;> simp [h, FlashOp.isRead]

theorem allReads_find_first_aux (f : Flash) (rg : FRange) (W E : Nat)
    (st : PageState) : ∀ l : List Nat, AllReads (find_first_aux f rg W E st l).2 := by
  intro l
  induction l with
  | nil => intro op hop; simp [find_first_aux] at hop
  | cons i rest ih =>
    simp only [find_first_aux]
    match get_page_state f rg W E i with
    | none => exact allReads_state_ops rg W E i
    | some s =>
      simp only
      split
      · exact allReads_state_ops rg W E i
      · exact allReads_append (allReads_state_ops rg W E i) ih

theorem allReads_find_first (f : Flash) (rg : FRange) (W E fromIdx : Nat)
    (st : PageState) : AllReads (find_first_page f rg W E fromIdx st).2 :=
  allReads_find_first_aux f rg W E st (ring_indices rg E fromIdx)

theorem allReads_replenish (f : Flash) (pds pde : Nat) (st : RState) :
    AllReads (replenish f pds pde st).2 := by
  simp only [replenish]
  split
  · intro op hop; simp at hop
  · intro op hop
    simp at hop
    simp [hop, FlashOp.isRead]

theorem allReads_readerStepCore {I K CErr : Type} (codec : StorageCodec I K CErr)
    (W : Nat) (f : Flash) (pds pde : Nat) (st : RState) :
    AllReads (readerStepCore codec W f pds pde st).2 := by
  simp only [readerStepCore]
  split
  · intro op hop; simp at hop
  · split
    · intro op hop; simp at hop
    · split
      · split
        · exact allReads_replenish f pds pde _
        · exact allReads_replenish f pds pde _
      · intro op hop; simp at hop

theorem allReads_readerStep {I K CErr : Type} (codec : StorageCodec I K CErr)
    (W : Nat) (f : Flash) (pds pde : Nat) (st : RState) :
    AllReads (readerStep codec W f pds pde st).2 := by
  simp only [readerStep]
  refine allReads_append ?_ (allReads_readerStepCore codec W f pds pde _)
  split
  · exact allReads_replenish f pds pde st
  · intro op hop; simp at hop

theorem allReads_readerRun {I K CErr : Type} (codec : StorageCodec I K CErr)
    (W : Nat) (f : Flash) (pds pde : Nat) :
    ∀ (fuel : Nat) (st : RState),
      AllReads (readerRun codec W f pds pde fuel st).2.2 := by
  intro fuel
  induction fuel with
  | zero => intro st op hop; simp [readerRun] at hop
  | succ fuel ih =>
    intro st
    simp only [readerRun]
    rcases h : readerStep codec W f pds pde st with ⟨step, ops⟩
    have hops : AllReads ops := by
      have := allReads_readerStep codec W f pds pde st
      rw [h] at this
      exact this
    match step with
    | .finished => exact hops
    | .failed e => exact hops
    | .yielded item addr len st2 => exact allReads_append hops (ih st2)

theorem allReads_read_page_items {I K CErr : Type} (codec : StorageCodec I K CErr)
    (W E : Nat) (f : Flash) (rg : FRange) (i : Nat) :
    AllReads (read_page_items codec W E f rg i).2.2 := by
  simp only [read_page_items, initReader]
  exact allReads_append (by intro op hop; simp at hop; simp [hop, FlashOp.isRead])
    (allReads_readerRun codec W f _ _ _ _)

theorem allReads_fetch_scan {I K CErr : Type} (codec : StorageCodec I K CErr)
    [DecidableEq K] (W E : Nat) (f : Flash) (rg : FRange) (k : K) :
    ∀ (fuel cur : Nat) (newest : Option (I × Nat × Nat)),
      AllReads (fetch_scan codec W E f rg k fuel cur newest).2 := by
  intro fuel
  induction fuel with
  | zero => intro cur newest op hop; simp [fetch_scan] at hop
  | succ fuel ih =>
    intro cur newest
    simp only [fetch_scan]
    split
    · exact allReads_read_page_items codec W E f rg cur
    · exact allReads_read_page_items codec W E f rg cur
    · split
      · exact allReads_read_page_items codec W E f rg cur
      · split
        · exact allReads_append (allReads_read_page_items codec W E f rg cur)
            (allReads_state_ops rg W E _)
        · split
          · exact allReads_append (allReads_read_page_items codec W E f rg cur)
              (allReads_state_ops rg W E _)
          · exact allReads_append
              (allReads_append (allReads_read_page_items codec W E f rg cur)
                (allReads_state_ops rg W E _)) (ih _ _)

theorem allReads_locate_tail {CErr : Type} (f : Flash) (rg : FRange) (W E : Nat) :
    AllReads (@locate_tail CErr f rg W E).2 := by
  simp only [locate_tail]
  rcases h0 : find_first_page f rg W E 0 .PartialOpen with ⟨r0, ops0⟩
  have hops0 : AllReads ops0 := by
    have := allReads_find_first f rg W E 0 .PartialOpen
    rw [h0] at this
    exact this
  match r0 with
  | none => exact hops0
  | some (some p) => exact hops0
  | some none =>
    simp only
    rcases h1 : find_first_page f rg W E 0 .Open with ⟨r1, ops1⟩
    have hops1 : AllReads ops1 := by
      have := allReads_find_first f rg W E 0 .Open
      rw [h1] at this
      exact this
    match r1 with
    | none => exact allReads_append hops0 hops1
    | some none => exact allReads_append hops0 hops1
    | some (some fop) =>
      simp only
      match get_page_state f rg W E (previous_page rg E fop) with
      | none =>
        exact allReads_append (allReads_append hops0 hops1) (allReads_state_ops rg W E _)
      | some s =>
        simp only
        split
        · exact allReads_append (allReads_append hops0 hops1) (allReads_state_ops rg W E _)
        · exact allReads_append (allReads_append hops0 hops1) (allReads_state_ops rg W E _)

theorem allReads_fiwl {I K CErr : Type} (codec : StorageCodec I K CErr) [DecidableEq K]
    (W E Rd : Nat) (f : Flash) (rg : FRange) (k : K) :
    ∀ r ops, fetch_item_with_location codec W E Rd f rg k = some (r, ops) →
      AllReads ops ∧ applyTrace f ops = f := by
  intro r ops h
  simp only [fetch_item_with_location] at h
  by_cases hp : fetch_preconds rg W E Rd = true
  · rw [if_pos hp] at h
    have hreads : AllReads ops := by
      rcases hlt : @locate_tail CErr f rg W E with ⟨res, lops⟩
      have hlops : AllReads lops := by
        have := @allReads_locate_tail CErr f rg W E
        rw [hlt] at this
        exact this
      rw [hlt] at h
      match res, h with
      | .error e, h =>
        simp only at h
        injection h with h
        injection h with h1 h2
        rw [← h2]
        exact hlops
      | .ok none, h =>
        simp only at h
        injection h with h
        injection h with h1 h2
        rw [← h2]
        exact hlops
      | .ok (some tail), h =>
        simp only at h
        injection h with h
        injection h with h1 h2
        rw [← h2]
        exact allReads_append hlops (allReads_fetch_scan codec W E f rg k _ _ _)
    exact ⟨hreads, allReads_applyTrace hreads f⟩
  · rw [if_neg hp] at h
    exact absurd h (by simp)

/-- Claim C9: the fetch path never mutates the flash: every driver operation
issued by `fetch_item_with_location` (and hence by `fetch_item`) is a read,
so replaying the trace leaves the flash contents unchanged. -/
theorem claim_C9 {I K CErr : Type} (codec : StorageCodec I K CErr) [DecidableEq K]
    (W E Rd : Nat) (f : Flash) (rg : FRange) (k : K) :
    (∀ r ops, fetch_item_with_location codec W E Rd f rg k = some (r, ops) →
      AllReads ops ∧ applyTrace f ops = f) ∧
    (∀ r ops, fetch_item codec W E Rd f rg k = some (r, ops) →
      AllReads ops ∧ applyTrace f ops = f) := by
  have main := allReads_fiwl codec W E Rd f rg k
  refine ⟨main, ?_⟩
  intro r ops h
  simp only [fetch_item] at h
  rcases hw : fetch_item_with_location codec W E Rd f rg k with _ | ⟨r0, ops0⟩
  · rw [hw] at h; exact absurd h (by simp)
  · rw [hw] at h
    simp only [Option.map] at h
    injection h with h
    injection h with h1 h2
    rw [← h2]
    exact ⟨(main r0 ops0 hw).1, (main r0 ops0 hw).2⟩

/-- Witness for C9 at a concrete fetch on a fresh two-page flash. -/
theorem claim_C9_witness :
    AllReads [FlashOp.read 0 1, FlashOp.read 7 1, FlashOp.read 8 1,
      FlashOp.read 15 1, FlashOp.read 0 1, FlashOp.read 7 1, FlashOp.read 8 1,
      FlashOp.read 15 1] ∧
    applyTrace freshFlash [FlashOp.read 0 1, FlashOp.read 7 1, FlashOp.read 8 1,
      FlashOp.read 15 1, FlashOp.read 0 1, FlashOp.read 7 1, FlashOp.read 8 1,
      FlashOp.read 15 1] = freshFlash :=
  (claim_C9 mockCodec 1 8 1 freshFlash ⟨0, 16⟩ (0 : Nat)).2 (.ok none) _ (by rfl)

/-- Counterexample to claim C2 as stated.  On `cexFlash` no Partial-Open
page exists, so the rotation's target is the first Open page (page 0) and
the ring-successor of the target (page 1) is Closed, i.e. not Open; the
claim demands that page 1's live record be migrated and page 1 be erased
before the target is partial-closed.  The code instead partial-closes the
target without issuing any erase: the store succeeds, the trace contains no
erase operation, and page 1 is still Closed with its record bytes intact
afterwards. -/
theorem claim_C2_counterexample :
    (find_first_page cexFlash ⟨0, 16⟩ 1 8 0 .PartialOpen).1 = some none ∧
    (find_first_page cexFlash ⟨0, 16⟩ 1 8 0 .Open).1 = some (some 0) ∧
    next_page ⟨0, 16⟩ 8 0 = 1 ∧
    get_page_state cexFlash ⟨0, 16⟩ 1 8 1 = some .Closed ∧
    ∃ r, store_item mockCodec 1 8 1 cexFlash ⟨0, 16⟩ ⟨5, [7]⟩ = some r ∧
      r.1 = .ok () ∧
      r.2.2.any FlashOp.isErase = false ∧
      get_page_state r.2.1 ⟨0, 16⟩ 1 8 1 = some .Closed ∧
      flashRead r.2.1 8 8 = [0x00, 3, 1, 9, 0xFF, 0xFF, 0xFF, 0x00] := by
  refine ⟨by decide, by decide, by decide, by decide, ?_⟩
  exact ⟨_, rfl, rfl, rfl, rfl, rfl⟩

theorem store_rotate_reclaim_eq {I K CErr : Type} (codec : StorageCodec I K CErr)
    [DecidableEq K] (W E Rd : Nat) (rg : FRange) (f : Flash) (nptu : Nat)
    (st nbs : PageState)
    (hst : get_page_state f rg W E nptu = some st) (hso : st.is_open = true)
    (hnb : get_page_state f rg W E (next_page rg E nptu) = some nbs)
    (hnbo : nbs.is_open = false)
    (items : List (I × Nat × Nat)) (rops : List FlashOp)
    (hread : read_page_items codec W E f rg (next_page rg E nptu) = (items, .done, rops))
    (f2 : Flash) (wa2 : Nat) (mops : List FlashOp)
    (hmig : migrate_items codec W E Rd rg (next_page rg E nptu) items f
      (calculate_page_address rg E nptu + W) = some (.ok (), f2, wa2, mops)) :
    store_rotate codec W E Rd rg f (some nptu) =
      some (.ok (),
        (partial_close_page
          (flashErase f2 (calculate_page_address rg E (next_page rg E nptu))
            (calculate_page_end_address rg E (next_page rg E nptu))) rg W E nptu).1,
        get_page_state_ops rg W E nptu ++
          get_page_state_ops rg W E (next_page rg E nptu) ++ rops ++ mops ++
          [.erase (calculate_page_address rg E (next_page rg E nptu))
            (calculate_page_end_address rg E (next_page rg E nptu))] ++
          (partial_close_page
            (flashErase f2 (calculate_page_address rg E (next_page rg E nptu))
              (calculate_page_end_address rg E (next_page rg E nptu))) rg W E nptu).2) := by
  simp only [store_rotate, hst, hnb, hread, hmig, hso, hnbo]
  simp

/-- Claim C2 as amended: only in the rotation branch where a Partial-Open
page existed and was just closed (so `next_page_to_use` is its successor)
does `store_item` reclaim the buffer: if the ring-successor of the target
is not Open, the live records of that successor are migrated into the
target and the successor is erased, both before the target is
partial-closed; when no Partial-Open page existed at entry the first Open
page is partial-closed with no reclamation (the counterexample shows
this). -/
theorem claim_C2 {I K CErr : Type} (codec : StorageCodec I K CErr) [DecidableEq K]
    (W E Rd : Nat) (rg : FRange) (f : Flash) (nptu : Nat) (st nbs : PageState)
    (hst : get_page_state f rg W E nptu = some st) (hso : st.is_open = true)
    (hnb : get_page_state f rg W E (next_page rg E nptu) = some nbs)
    (hnbo : nbs.is_open = false)
    (items : List (I × Nat × Nat)) (rops : List FlashOp)
    (hread : read_page_items codec W E f rg (next_page rg E nptu) = (items, .done, rops))
    (f2 : Flash) (wa2 : Nat) (mops : List FlashOp)
    (hmig : migrate_items codec W E Rd rg (next_page rg E nptu) items f
      (calculate_page_address rg E nptu + W) = some (.ok (), f2, wa2, mops)) :
    store_rotate codec W E Rd rg f (some nptu) =
      some (.ok (),
        (partial_close_page
          (flashErase f2 (calculate_page_address rg E (next_page rg E nptu))
            (calculate_page_end_address rg E (next_page rg E nptu))) rg W E nptu).1,
        get_page_state_ops rg W E nptu ++
          get_page_state_ops rg W E (next_page rg E nptu) ++ rops ++ mops ++
          [.erase (calculate_page_address rg E (next_page rg E nptu))
            (calculate_page_end_address rg E (next_page rg E nptu))] ++
          (partial_close_page
            (flashErase f2 (calculate_page_address rg E (next_page rg E nptu))
              (calculate_page_end_address rg E (next_page rg E nptu))) rg W E nptu).2) :=
  store_rotate_reclaim_eq codec W E Rd rg f nptu st nbs hst hso hnb hnbo items rops
    hread f2 wa2 mops hmig

/-- Witness for the amended C2 on `cex2Flash`: target page 1 is Open, its
ring-successor page 0 is Closed with one live record, which is migrated to
page 1's data zone before page 0 is erased and page 1 is partial-closed. -/
theorem claim_C2_witness :
    store_rotate mockCodec 1 8 1 ⟨0, 16⟩ cex2Flash (some 1) =
      some (.ok (),
        (partial_close_page
          (flashErase (flashWrite cex2Flash 9 (flashRead cex2Flash 1 3))
            (calculate_page_address ⟨0, 16⟩ 8 (next_page ⟨0, 16⟩ 8 1))
            (calculate_page_end_address ⟨0, 16⟩ 8 (next_page ⟨0, 16⟩ 8 1))) ⟨0, 16⟩ 1 8 1).1,
        get_page_state_ops ⟨0, 16⟩ 1 8 1 ++
          get_page_state_ops ⟨0, 16⟩ 1 8 (next_page ⟨0, 16⟩ 8 1) ++
          [FlashOp.read 1 6] ++
          [FlashOp.read 0 1, FlashOp.read 7 1, FlashOp.read 8 1, FlashOp.read 15 1,
            FlashOp.read 0 1, FlashOp.read 7 1, FlashOp.read 8 1, FlashOp.read 15 1,
            FlashOp.read 0 1, FlashOp.read 7 1, FlashOp.read 1 6,
            FlashOp.read 1 3, FlashOp.write 9 [3, 1, 9]] ++
          [.erase (calculate_page_address ⟨0, 16⟩ 8 (next_page ⟨0, 16⟩ 8 1))
            (calculate_page_end_address ⟨0, 16⟩ 8 (next_page ⟨0, 16⟩ 8 1))] ++
          (partial_close_page
            (flashErase (flashWrite cex2Flash 9 (flashRead cex2Flash 1 3))
              (calculate_page_address ⟨0, 16⟩ 8 (next_page ⟨0, 16⟩ 8 1))
              (calculate_page_end_address ⟨0, 16⟩ 8 (next_page ⟨0, 16⟩ 8 1))) ⟨0, 16⟩ 1 8 1).2) :=
  claim_C2 mockCodec 1 8 1 ⟨0, 16⟩ cex2Flash 1 .Open .Closed (by decide) (by decide)
    (by decide) (by decide) [(⟨3, [9]⟩, 1, 3)] [FlashOp.read 1 6] (by rfl)
    (flashWrite cex2Flash 9 (flashRead cex2Flash 1 3)) 12
    [FlashOp.read 0 1, FlashOp.read 7 1, FlashOp.read 8 1, FlashOp.read 15 1,
      FlashOp.read 0 1, FlashOp.read 7 1, FlashOp.read 8 1, FlashOp.read 15 1,
      FlashOp.read 0 1, FlashOp.read 7 1, FlashOp.read 1 6,
      FlashOp.read 1 3, FlashOp.write 9 [3, 1, 9]] (by rfl)

/-- Claim C7: in the reclamation branch of the rotation, the erase of the
buffer page is issued strictly after every operation of the migration
(in particular after all its writes into the target page), and the only
operation after the erase is the partial-close marker write of the target
header — the erase is never performed before or between migration
writes. -/
theorem claim_C7 {I K CErr : Type} (codec : StorageCodec I K CErr) [DecidableEq K]
    (W E Rd : Nat) (rg : FRange) (f : Flash) (nptu : Nat) (st nbs : PageState)
    (hst : get_page_state f rg W E nptu = some st) (hso : st.is_open = true)
    (hnb : get_page_state f rg W E (next_page rg E nptu) = some nbs)
    (hnbo : nbs.is_open = false)
    (items : List (I × Nat × Nat)) (rops : List FlashOp)
    (hread : read_page_items codec W E f rg (next_page rg E nptu) = (items, .done, rops))
    (f2 : Flash) (wa2 : Nat) (mops : List FlashOp)
    (hmig : migrate_items codec W E Rd rg (next_page rg E nptu) items f
      (calculate_page_address rg E nptu + W) = some (.ok (), f2, wa2, mops)) :
    ∃ f3 pre post,
      store_rotate codec W E Rd rg f (some nptu) =
        some (.ok (), f3,
          pre ++ [.erase (calculate_page_address rg E (next_page rg E nptu))
            (calculate_page_end_address rg E (next_page rg E nptu))] ++ post) ∧
      (∀ op ∈ mops, op ∈ pre) ∧
      post = [.write (calculate_page_address rg E nptu) (marker W)] := by
  refine ⟨(partial_close_page
      (flashErase f2 (calculate_page_address rg E (next_page rg E nptu))
        (calculate_page_end_address rg E (next_page rg E nptu))) rg W E nptu).1,
    get_page_state_ops rg W E nptu ++
      get_page_state_ops rg W E (next_page rg E nptu) ++ rops ++ mops,
    (partial_close_page
      (flashErase f2 (calculate_page_address rg E (next_page rg E nptu))
        (calculate_page_end_address rg E (next_page rg E nptu))) rg W E nptu).2,
    ?_, ?_, ?_⟩
  · exact store_rotate_reclaim_eq codec W E Rd rg f nptu st nbs hst hso hnb hnbo items
      rops hread f2 wa2 mops hmig
  · intro op hop
    simp [hop]
  · rfl

/-- Witness for C7 on `cex2Flash` (target page 1 Open, buffer page 0 Closed
with one live record). -/
theorem claim_C7_witness :
    ∃ f3 pre post,
      store_rotate mockCodec 1 8 1 ⟨0, 16⟩ cex2Flash (some 1) =
        some (.ok (), f3,
          pre ++ [.erase (calculate_page_address ⟨0, 16⟩ 8 (next_page ⟨0, 16⟩ 8 1))
            (calculate_page_end_address ⟨0, 16⟩ 8 (next_page ⟨0, 16⟩ 8 1))] ++ post) ∧
      (∀ op ∈ [FlashOp.read 0 1, FlashOp.read 7 1, FlashOp.read 8 1, FlashOp.read 15 1,
        FlashOp.read 0 1, FlashOp.read 7 1, FlashOp.read 8 1, FlashOp.read 15 1,
        FlashOp.read 0 1, FlashOp.read 7 1, FlashOp.read 1 6,
        FlashOp.read 1 3, FlashOp.write 9 [3, 1, 9]], op ∈ pre) ∧
      post = [.write (calculate_page_address ⟨0, 16⟩ 8 1) (marker 1)] :=
  claim_C7 mockCodec 1 8 1 ⟨0, 16⟩ cex2Flash 1 .Open .Closed (by decide) (by decide)
    (by decide) (by decide) [(⟨3, [9]⟩, 1, 3)] [FlashOp.read 1 6] (by rfl)
    (flashWrite cex2Flash 9 (flashRead cex2Flash 1 3)) 12
    [FlashOp.read 0 1, FlashOp.read 7 1, FlashOp.read 8 1, FlashOp.read 15 1,
      FlashOp.read 0 1, FlashOp.read 7 1, FlashOp.read 8 1, FlashOp.read 15 1,
      FlashOp.read 0 1, FlashOp.read 7 1, FlashOp.read 1 6,
      FlashOp.read 1 3, FlashOp.write 9 [3, 1, 9]] (by rfl)

theorem writePairs_append (a b : List FlashOp) :
    writePairs (a ++ b) = writePairs a ++ writePairs b := by
  simp [writePairs, List.filterMap_append]

theorem writePairs_of_allReads {ops : List FlashOp} (h : AllReads ops) :
    writePairs ops = [] := by
  induction ops with
  | nil => rfl
  | cons op rest ih =>
    have hop := h op (List.mem_cons_self op rest)
    have hrest : AllReads rest := fun o ho => h o (List.mem_cons_of_mem op ho)
    match op, hop with
    | .read a l, _ => simpa [writePairs] using ih hrest

theorem flashRead_length (f : Flash) (a n : Nat) : (flashRead f a n).length = n := by
  simp [flashRead]

/-- Claim C6: during buffer reclamation, a record streamed from the buffer
page is copied into the target page if and only if the newest version of
its key, as located by `fetch_item_with_location`, lies on the buffer page
(first conjunct: the two step equations of the migration fold, one per
direction of the test); and the copied records are written back to back,
each at the address where the previous one ended, starting from the write
address the fold begins at — in the rotation that address is the target
page's data-zone start — in the order they were read (second conjunct). -/
theorem claim_C6 {I K CErr : Type} (codec : StorageCodec I K CErr) [DecidableEq K]
    (W E Rd : Nat) (rg : FRange) (nb : Nat) :
    (∀ (it : I × Nat × Nat) (rest : List (I × Nat × Nat)) (f : Flash) (wa : Nat)
      (loc : I × Nat × Nat) (fops : List FlashOp),
      fetch_item_with_location codec W E Rd f rg (codec.key it.1) =
        some (.ok (some loc), fops) →
      (calculate_page_index rg E loc.2.1 = nb →
        migrate_items codec W E Rd rg nb (it :: rest) f wa =
          (migrate_items codec W E Rd rg nb rest
            (flashWrite f wa (flashRead f loc.2.1 loc.2.2)) (wa + loc.2.2)).map
            fun r => (r.1, r.2.1, r.2.2.1,
              fops ++ [.read loc.2.1 loc.2.2,
                .write wa (flashRead f loc.2.1 loc.2.2)] ++ r.2.2.2)) ∧
      (calculate_page_index rg E loc.2.1 ≠ nb →
        migrate_items codec W E Rd rg nb (it :: rest) f wa =
          (migrate_items codec W E Rd rg nb rest f wa).map
            fun r => (r.1, r.2.1, r.2.2.1, fops ++ r.2.2.2))) ∧
    (fetch_preconds rg W E Rd = true →
      ∀ (items : List (I × Nat × Nat)) (f : Flash) (wa : Nat) r f2 wa2
        (mops : List FlashOp),
        migrate_items codec W E Rd rg nb items f wa = some (r, f2, wa2, mops) →
        consecFrom wa (writePairs mops)) := by
  constructor
  · intro it rest f wa loc fops hf
    constructor
    · intro hpage
      rcases hm : migrate_items codec W E Rd rg nb rest
          (flashWrite f wa (flashRead f loc.2.1 loc.2.2)) (wa + loc.2.2) with
        _ | ⟨r3, f3, wa3, ops3⟩
      · simp [migrate_items, hf, hpage, hm]
      · simp [migrate_items, hf, hpage, hm]
    · intro hpage
      rcases hm : migrate_items codec W E Rd rg nb rest f wa with _ | ⟨r3, f3, wa3, ops3⟩
      · simp [migrate_items, hf, hpage, hm]
      · simp [migrate_items, hf, hpage, hm]
  · intro hp items
    induction items with
    | nil =>
      intro f wa r f2 wa2 mops h
      simp only [migrate_items] at h
      cases h
      simp [writePairs, consecFrom]
    | cons it rest ih =>
      intro f wa r f2 wa2 mops h
      obtain ⟨⟨res, fops⟩, hr⟩ := Option.isSome_iff_exists.mp
        (fetch_item_with_location_isSome codec W E Rd f rg (codec.key it.1) hp)
      have hfl : AllReads fops :=
        (allReads_fiwl codec W E Rd f rg (codec.key it.1) res fops hr).1
      simp only [migrate_items, hr] at h
      match res, h with
      | .error e, h =>
        cases h
        simp [writePairs_of_allReads hfl, consecFrom]
      | .ok none, h =>
        cases h
        simp [writePairs_of_allReads hfl, consecFrom]
      | .ok (some loc), h =>
        simp only at h
        by_cases hpage : calculate_page_index rg E loc.2.1 = nb
        · rw [if_pos hpage] at h
          rcases hm : migrate_items codec W E Rd rg nb rest
              (flashWrite f wa (flashRead f loc.2.1 loc.2.2)) (wa + loc.2.2) with
            _ | ⟨r3, f3, wa3, ops3⟩
          · rw [hm] at h
            exact absurd h (by simp)
          · rw [hm] at h
            have hrec := ih (flashWrite f wa (flashRead f loc.2.1 loc.2.2))
              (wa + loc.2.2) r3 f3 wa3 ops3 hm
            have hmop : mops = fops ++ [FlashOp.read loc.2.1 loc.2.2,
                FlashOp.write wa (flashRead f loc.2.1 loc.2.2)] ++ ops3 := by
              have h0 := Option.some.inj h
              have := congrArg (fun x : _ × _ × _ × List FlashOp => x.2.2.2) h0
              exact this.symm
            rw [hmop, writePairs_append, writePairs_append, writePairs_of_allReads hfl]
            have hw : writePairs [FlashOp.read loc.2.1 loc.2.2,
                FlashOp.write wa (flashRead f loc.2.1 loc.2.2)] =
                [(wa, flashRead f loc.2.1 loc.2.2)] := by
              simp [writePairs]
            rw [hw]
            refine ⟨rfl, ?_⟩
            rw [flashRead_length]
            exact hrec
        · rw [if_neg hpage] at h
          rcases hm : migrate_items codec W E Rd rg nb rest f wa with
            _ | ⟨r3, f3, wa3, ops3⟩
          · rw [hm] at h
            exact absurd h (by simp)
          · rw [hm] at h
            have hrec := ih f wa r3 f3 wa3 ops3 hm
            have hmop : mops = fops ++ ops3 := by
              have h0 := Option.some.inj h
              have := congrArg (fun x : _ × _ × _ × List FlashOp => x.2.2.2) h0
              exact this.symm
            rw [hmop, writePairs_append, writePairs_of_allReads hfl]
            simpa using hrec

/-- Witness for C6 on `cex2Flash`: the single record of buffer page 0 has
its newest version on page 0, so the step equation copies it to address 9,
and the writes of the full migration trace are consecutive from 9. -/
theorem claim_C6_witness :
    migrate_items mockCodec 1 8 1 ⟨0, 16⟩ 0 [(⟨3, [9]⟩, 1, 3)] cex2Flash 9 =
      (migrate_items mockCodec 1 8 1 ⟨0, 16⟩ 0 []
        (flashWrite cex2Flash 9 (flashRead cex2Flash 1 3)) (9 + 3)).map
        (fun r => (r.1, r.2.1, r.2.2.1,
          [FlashOp.read 0 1, FlashOp.read 7 1, FlashOp.read 8 1, FlashOp.read 15 1,
            FlashOp.read 0 1, FlashOp.read 7 1, FlashOp.read 8 1, FlashOp.read 15 1,
            FlashOp.read 0 1, FlashOp.read 7 1, FlashOp.read 1 6] ++
            [.read 1 3, .write 9 (flashRead cex2Flash 1 3)] ++ r.2.2.2)) ∧
    consecFrom 9 (writePairs
      [FlashOp.read 0 1, FlashOp.read 7 1, FlashOp.read 8 1, FlashOp.read 15 1,
        FlashOp.read 0 1, FlashOp.read 7 1, FlashOp.read 8 1, FlashOp.read 15 1,
        FlashOp.read 0 1, FlashOp.read 7 1, FlashOp.read 1 6,
        FlashOp.read 1 3, FlashOp.write 9 [3, 1, 9]]) :=
  ⟨((claim_C6 mockCodec 1 8 1 ⟨0, 16⟩ 0).1 (⟨3, [9]⟩, 1, 3) [] cex2Flash 9
      (⟨3, [9]⟩, 1, 3)
      [FlashOp.read 0 1, FlashOp.read 7 1, FlashOp.read 8 1, FlashOp.read 15 1,
        FlashOp.read 0 1, FlashOp.read 7 1, FlashOp.read 8 1, FlashOp.read 15 1,
        FlashOp.read 0 1, FlashOp.read 7 1, FlashOp.read 1 6] (by rfl)).1 (by decide),
    (claim_C6 mockCodec 1 8 1 ⟨0, 16⟩ 0).2 (by decide) [(⟨3, [9]⟩, 1, 3)] cex2Flash 9
      (.ok ()) (flashWrite cex2Flash 9 (flashRead cex2Flash 1 3)) 12
      [FlashOp.read 0 1, FlashOp.read 7 1, FlashOp.read 8 1, FlashOp.read 15 1,
        FlashOp.read 0 1, FlashOp.read 7 1, FlashOp.read 8 1, FlashOp.read 15 1,
        FlashOp.read 0 1, FlashOp.read 7 1, FlashOp.read 1 6,
        FlashOp.read 1 3, FlashOp.write 9 [3, 1, 9]] (by rfl)⟩

theorem foldl_last_addr {I : Type} :
    ∀ (l : List (I × Nat × Nat)) (d : Nat),
      l.foldl (fun _ it => it.2.1 + it.2.2) d =
        (match l.getLast? with
          | none => d
          | some it => it.2.1 + it.2.2) := by
  intro l
  induction l with
  | nil => intro d; rfl
  | cons a rest ih =>
    intro d
    rw [List.foldl_cons, ih (a.2.1 + a.2.2)]
    cases rest with
    | nil => rfl
    | cons b t =>
      cases hlast : (b :: t).getLast? with
      | none => simp at hlast
      | some x => simp [List.getLast?_cons_cons, hlast]

/-- Claim C5: the store fast path on a Partial-Open page `p`.  The first
free address is the address immediately after the last streamed item (the
data-zone start when the page streams no items); the codec is handed a
scratch buffer of exactly `min(512, data-zone-end - first-free)` bytes; on
success the byte count is rounded up to a multiple of the write size `W`,
the record is written at the first free address (padded with 0xFF up to the
rounded length) and `store_item_inner` returns success; a buffer-too-small
from the codec instead closes the page (footer marker write) and hands its
ring-successor to the rotation. -/
theorem claim_C5 {I K CErr : Type} (codec : StorageCodec I K CErr) [DecidableEq K]
    (W E Rd : Nat) (rg : FRange) (f : Flash) (item : I) (p : Nat)
    (items : List (I × Nat × Nat)) (rops : List FlashOp)
    (hread : read_page_items codec W E f rg p = (items, .done, rops)) :
    (items.foldl (fun _ it => it.2.1 + it.2.2) (pageDataStart rg W E p) =
      (match items.getLast? with
        | none => pageDataStart rg W E p
        | some it => it.2.1 + it.2.2)) ∧
    (∀ bytes, codec.serialize_into item
        (min MAX_STORAGE_ITEM_SIZE (pageDataEnd rg W E p -
          items.foldl (fun _ it => it.2.1 + it.2.2) (pageDataStart rg W E p))) =
        .ok bytes →
      store_fast codec W E f rg item p =
        (.finish (.ok ()),
          flashWrite f
            (items.foldl (fun _ it => it.2.1 + it.2.2) (pageDataStart rg W E p))
            (bytes ++ List.replicate (roundUp W bytes.length - bytes.length) 0xFF),
          rops ++ [.write
            (items.foldl (fun _ it => it.2.1 + it.2.2) (pageDataStart rg W E p))
            (bytes ++ List.replicate (roundUp W bytes.length - bytes.length) 0xFF)])) ∧
    (∀ e, codec.serialize_into item
        (min MAX_STORAGE_ITEM_SIZE (pageDataEnd rg W E p -
          items.foldl (fun _ it => it.2.1 + it.2.2) (pageDataStart rg W E p))) =
        .error e →
      codec.is_buffer_too_small e = true →
      store_fast codec W E f rg item p =
        (.rotate (next_page rg E p), (close_page f rg W E p).1,
          rops ++ (close_page f rg W E p).2)) ∧
    (∀ (level fuel : Nat) (pops : List FlashOp) (r : Except (MapError CErr) Unit),
      level ≠ page_count rg E →
      find_first_page f rg W E 0 .PartialOpen = (some (some p), pops) →
      (store_fast codec W E f rg item p).1 = .finish r →
      store_item_inner codec W E Rd rg item level (fuel + 1) f =
        some (r, (store_fast codec W E f rg item p).2.1,
          pops ++ (store_fast codec W E f rg item p).2.2)) := by
  refine ⟨foldl_last_addr items (pageDataStart rg W E p), ?_, ?_, ?_⟩
  · intro bytes hser
    simp only [store_fast, hread, hser]
  · intro e hser hbts
    simp only [store_fast, hread, hser, hbts]
    simp
  · intro level fuel pops r hlevel hff hfin
    simp only [store_item_inner, if_neg hlevel, hff, hfin]

/-- Witness for C5: page 0 is Partial-Open holding one 3-byte record, so
the first free address is 4, the codec gets `min(512, 7 - 4) = 3` bytes,
the item `(4, [5])` serializes to `[4, 1, 5]` and is written at 4, and
`store_item_inner` succeeds. -/
theorem claim_C5_witness :
    (([((⟨3, [9]⟩ : MockItem), 1, 3)].foldl (fun _ it => it.2.1 + it.2.2)
        (pageDataStart ⟨0, 16⟩ 1 8 0) =
      (match [((⟨3, [9]⟩ : MockItem), 1, 3)].getLast? with
        | none => pageDataStart ⟨0, 16⟩ 1 8 0
        | some it => it.2.1 + it.2.2))) ∧
    (store_fast mockCodec 1 8 pOpenFlash ⟨0, 16⟩ ⟨4, [5]⟩ 0 =
      (.finish (.ok ()),
        flashWrite pOpenFlash 4 ([4, 1, 5] ++ List.replicate (roundUp 1 3 - 3) 0xFF),
        [FlashOp.read 1 6] ++ [.write 4 ([4, 1, 5] ++
          List.replicate (roundUp 1 3 - 3) 0xFF)])) ∧
    (store_item_inner mockCodec 1 8 1 ⟨0, 16⟩ ⟨4, [5]⟩ 0 (2 + 1) pOpenFlash =
      some (.ok (), (store_fast mockCodec 1 8 pOpenFlash ⟨0, 16⟩ ⟨4, [5]⟩ 0).2.1,
        [FlashOp.read 0 1, FlashOp.read 7 1] ++
          (store_fast mockCodec 1 8 pOpenFlash ⟨0, 16⟩ ⟨4, [5]⟩ 0).2.2)) := by
  have h := claim_C5 mockCodec 1 8 1 ⟨0, 16⟩ pOpenFlash ⟨4, [5]⟩ 0
    [((⟨3, [9]⟩ : MockItem), 1, 3)] [FlashOp.read 1 6] (by rfl)
  refine ⟨h.1, ?_, ?_⟩
  · have hb := h.2.1 [4, 1, 5] (by rfl)
    simpa using hb
  · have hd := h.2.2.2 0 2 [FlashOp.read 0 1, FlashOp.read 7 1] (.ok ())
      (by decide) (by rfl) ?_
    · exact hd
    · have hb := h.2.1 [4, 1, 5] (by rfl)
      rw [hb]

theorem readsInZone_append {pds pde : Nat} {a b : List FlashOp}
    (ha : ReadsInZone pds pde a) (hb : ReadsInZone pds pde b) :
    ReadsInZone pds pde (a ++ b) := by
  intro ad l hmem
  rcases List.mem_append.mp hmem with h | h
  · exact ha ad l h
  · exact hb ad l h

theorem readsInZone_nil {pds pde : Nat} : ReadsInZone pds pde [] := by
  intro a l hmem
  simp at hmem

theorem replenish_reads_in_zone (f : Flash) (pds pde : Nat) (st : RState)
    (h : st.used ≤ MAX_STORAGE_ITEM_SIZE) :
    ReadsInZone pds pde (replenish f pds pde st).2 := by
  simp only [replenish]
  split
  · exact readsInZone_nil
  next hne =>
    intro a l hmem x hx1 hx2
    simp only [List.mem_singleton, FlashOp.read.injEq] at hmem
    obtain ⟨ha, hl⟩ := hmem
    subst ha
    subst hl
    constructor <;> omega

theorem replenish_wf (f : Flash) (pds pde : Nat) (st : RState)
    (h : st.used ≤ st.buf.length) :
    (replenish f pds pde st).1.buf.length = st.buf.length ∧
      (replenish f pds pde st).1.used = 0 := by
  constructor
  · simp only [replenish, List.length_append, List.length_drop, List.length_replicate,
      flashRead_length]
    omega
  · rfl

theorem window_not_allFF_used_lt {st : RState}
    (h : ((st.buf.drop st.used).all fun b => b == 0xFF) = false) :
    st.used < st.buf.length := by
  by_contra hle
  push_neg at hle
  rw [List.drop_eq_nil_of_le hle] at h
  simp at h

theorem readerStepCore_zone {I K CErr : Type} (codec : StorageCodec I K CErr)
    (W : Nat) (f : Flash) (pds pde : Nat) (st : RState)
    (hwf : st.buf.length = MAX_STORAGE_ITEM_SIZE) :
    ReadsInZone pds pde (readerStepCore codec W f pds pde st).2 := by
  simp only [readerStepCore]
  split
  · exact readsInZone_nil
  · next hff =>
    have hlt : st.used < MAX_STORAGE_ITEM_SIZE := by
      have := @window_not_allFF_used_lt st (by
        cases h : (st.buf.drop st.used).all fun b => b == 0xFF
        · rfl
        · exact absurd h hff)
      omega
    split
    · exact readsInZone_nil
    · split
      · split
        · exact replenish_reads_in_zone f pds pde st (le_of_lt hlt)
        · exact replenish_reads_in_zone f pds pde st (le_of_lt hlt)
      · exact readsInZone_nil

theorem readerStepCore_wf {I K CErr : Type} (codec : StorageCodec I K CErr)
    (W : Nat) (f : Flash) (pds pde : Nat) (st : RState)
    (hwf : st.buf.length = MAX_STORAGE_ITEM_SIZE) :
    ∀ item addr len st2,
      (readerStepCore codec W f pds pde st).1 = .yielded item addr len st2 →
      st2.buf.length = MAX_STORAGE_ITEM_SIZE := by
  intro item addr len st2
  simp only [readerStepCore]
  split
  · intro h; exact absurd h (by simp)
  · next hff =>
    have hlt : st.used < MAX_STORAGE_ITEM_SIZE := by
      have := @window_not_allFF_used_lt st (by
        cases h : (st.buf.drop st.used).all fun b => b == 0xFF
        · rfl
        · exact absurd h hff)
      omega
    split
    · intro h
      injection h with h1 h2 h3 h4
      rw [← h4]
      exact hwf
    · split
      · split
        · intro h
          injection h with h1 h2 h3 h4
          rw [← h4]
          simp only
          exact (replenish_wf f pds pde st (by omega)).1.trans hwf
        · intro h; exact absurd h (by simp)
      · intro h; exact absurd h (by simp)

theorem readerStep_zone {I K CErr : Type} (codec : StorageCodec I K CErr)
    (W : Nat) (f : Flash) (pds pde : Nat) (st : RState)
    (hwf : st.buf.length = MAX_STORAGE_ITEM_SIZE) :
    ReadsInZone pds pde (readerStep codec W f pds pde st).2 := by
  simp only [readerStep]
  refine readsInZone_append ?_ ?_
  · split
    · exact replenish_reads_in_zone f pds pde st (by omega)
    · exact readsInZone_nil
  · split
    · next hu =>
      exact readerStepCore_zone codec W f pds pde _
        ((replenish_wf f pds pde st (le_of_eq hu)).1.trans hwf)
    · exact readerStepCore_zone codec W f pds pde st hwf

theorem readerStep_wf {I K CErr : Type} (codec : StorageCodec I K CErr)
    (W : Nat) (f : Flash) (pds pde : Nat) (st : RState)
    (hwf : st.buf.length = MAX_STORAGE_ITEM_SIZE) :
    ∀ item addr len st2,
      (readerStep codec W f pds pde st).1 = .yielded item addr len st2 →
      st2.buf.length = MAX_STORAGE_ITEM_SIZE := by
  intro item addr len st2
  simp only [readerStep]
  split
  · next hu =>
    exact readerStepCore_wf codec W f pds pde _
      ((replenish_wf f pds pde st (le_of_eq hu)).1.trans hwf) item addr len st2
  · exact readerStepCore_wf codec W f pds pde st hwf item addr len st2

theorem readerRun_zone {I K CErr : Type} (codec : StorageCodec I K CErr)
    (W : Nat) (f : Flash) (pds pde : Nat) :
    ∀ (fuel : Nat) (st : RState), st.buf.length = MAX_STORAGE_ITEM_SIZE →
      ReadsInZone pds pde (readerRun codec W f pds pde fuel st).2.2 := by
  intro fuel
  induction fuel with
  | zero => intro st _; exact readsInZone_nil
  | succ fuel ih =>
    intro st hwf
    simp only [readerRun]
    rcases hstep : readerStep codec W f pds pde st with ⟨step, ops⟩
    have hops : ReadsInZone pds pde ops := by
      have := readerStep_zone codec W f pds pde st hwf
      rw [hstep] at this
      exact this
    match step with
    | .finished => exact hops
    | .failed e => exact hops
    | .yielded item addr len st2 =>
      have hwf2 : st2.buf.length = MAX_STORAGE_ITEM_SIZE := by
        have := readerStep_wf codec W f pds pde st hwf item addr len st2
        rw [hstep] at this
        exact this rfl
      exact readsInZone_append hops (ih st2 hwf2)

theorem initReader_wf (f : Flash) (pds pde : Nat) :
    (initReader f pds pde).1.buf.length = MAX_STORAGE_ITEM_SIZE := by
  simp only [initReader, List.length_append, List.length_replicate, flashRead_length]
  omega

theorem initReader_zone (f : Flash) (pds pde : Nat) :
    ReadsInZone pds pde (initReader f pds pde).2 := by
  intro a l hmem x hx1 hx2
  simp only [initReader, List.mem_singleton, FlashOp.read.injEq] at hmem
  obtain ⟨ha, hl⟩ := hmem
  subst ha
  subst hl
  unfold MAX_STORAGE_ITEM_SIZE at hx2
  constructor <;> omega

theorem readerStepCore_finished_iff {I K CErr : Type} (codec : StorageCodec I K CErr)
    (W : Nat) (f : Flash) (pds pde : Nat) (st : RState) :
    (readerStepCore codec W f pds pde st).1 = (RStep.finished : RStep I CErr) ↔
      ((st.buf.drop st.used).all fun b => b == 0xFF) = true := by
  simp only [readerStepCore]
  split
  · next h => simp [h]
  · next h =>
    constructor
    · intro hl
      exfalso
      rcases hdes : codec.deserialize_from (st.buf.drop st.used) with e | ⟨it, ub⟩
      · rw [hdes] at hl
        dsimp only at hl
        by_cases hb : codec.is_buffer_too_small e = true ∧ 0 < st.used
        · rw [if_pos hb] at hl
          rcases hdes2 : codec.deserialize_from
              ((replenish f pds pde st).1.buf.drop (replenish f pds pde st).1.used) with
            e2 | ⟨it2, ub2⟩
          · rw [hdes2] at hl
            simp at hl
          · rw [hdes2] at hl
            simp at hl
        · rw [if_neg hb] at hl
          simp at hl
      · rw [hdes] at hl
        simp at hl
    · intro hc
      exact absurd hc h

/-- Claim C8, in four conjuncts about the item-stream reader.
First: a pull of the iterator terminates the stream exactly when, after the
automatic whole-window-consumed replenish, the remaining unread window is
entirely 0xFF.  Second and third: when the window is not all 0xFF and
deserialization fails, the reader compacts and refills exactly when the
error is buffer-too-small and some window bytes were already consumed
(retrying the decode once on the refilled window); in every other error
case it surfaces an item error, and a failed step ends the sequence
(fourth conjunct).  Fifth: over a whole `read_page_items` run, every byte
read from flash lies inside the page's data zone. -/
theorem claim_C8 {I K CErr : Type} (codec : StorageCodec I K CErr) (W E : Nat)
    (f : Flash) (rg : FRange) (i : Nat) :
    (∀ st : RState,
      (readerStep codec W f (pageDataStart rg W E i) (pageDataEnd rg W E i) st).1 =
          (RStep.finished : RStep I CErr) ↔
        ((if st.used = st.buf.length
            then (replenish f (pageDataStart rg W E i) (pageDataEnd rg W E i) st).1
            else st).buf.drop
          (if st.used = st.buf.length
            then (replenish f (pageDataStart rg W E i) (pageDataEnd rg W E i) st).1
            else st).used).all (fun b => b == 0xFF) = true) ∧
    (∀ (st : RState) (e : CErr),
      ((st.buf.drop st.used).all fun b => b == 0xFF) = false →
      codec.deserialize_from (st.buf.drop st.used) = .error e →
      codec.is_buffer_too_small e = true → 0 < st.used →
      readerStepCore codec W f (pageDataStart rg W E i) (pageDataEnd rg W E i) st =
        (match codec.deserialize_from
            (((replenish f (pageDataStart rg W E i) (pageDataEnd rg W E i) st).1).buf.drop
              ((replenish f (pageDataStart rg W E i) (pageDataEnd rg W E i) st).1).used) with
          | .ok (item, used_bytes) =>
            RStep.yielded item
              (pageDataStart rg W E i +
                (replenish f (pageDataStart rg W E i) (pageDataEnd rg W E i) st).1.startIdx)
              (roundUp W used_bytes)
              ⟨(replenish f (pageDataStart rg W E i) (pageDataEnd rg W E i) st).1.buf,
                (replenish f (pageDataStart rg W E i) (pageDataEnd rg W E i) st).1.used +
                  roundUp W used_bytes,
                (replenish f (pageDataStart rg W E i) (pageDataEnd rg W E i) st).1.startIdx +
                  roundUp W used_bytes⟩
          | .error e2 => RStep.failed (.Item e2),
          (replenish f (pageDataStart rg W E i) (pageDataEnd rg W E i) st).2)) ∧
    (∀ (st : RState) (e : CErr),
      ((st.buf.drop st.used).all fun b => b == 0xFF) = false →
      codec.deserialize_from (st.buf.drop st.used) = .error e →
      ¬(codec.is_buffer_too_small e = true ∧ 0 < st.used) →
      readerStepCore codec W f (pageDataStart rg W E i) (pageDataEnd rg W E i) st =
        (.failed (.Item e), [])) ∧
    (∀ (fuel : Nat) (st : RState) (e : MapError CErr) (ops : List FlashOp),
      readerStep codec W f (pageDataStart rg W E i) (pageDataEnd rg W E i) st =
        (.failed e, ops) →
      readerRun codec W f (pageDataStart rg W E i) (pageDataEnd rg W E i) (fuel + 1) st =
        ([], .fail e, ops)) ∧
    ReadsInZone (pageDataStart rg W E i) (pageDataEnd rg W E i)
      (read_page_items codec W E f rg i).2.2 := by
  refine ⟨?_, ?_, ?_, ?_, ?_⟩
  · intro st
    simp only [readerStep]
    by_cases hu : st.used = st.buf.length
    · simp only [if_pos hu]
      exact readerStepCore_finished_iff codec W f _ _ _
    · simp only [if_neg hu]
      exact readerStepCore_finished_iff codec W f _ _ _
  · intro st e hff hdes hbts hused
    simp only [readerStepCore, hff, hdes, Bool.false_eq_true, if_false]
    rw [if_pos ⟨hbts, hused⟩]
    rcases hdes2 : codec.deserialize_from
        ((replenish f (pageDataStart rg W E i) (pageDataEnd rg W E i) st).1.buf.drop
          (replenish f (pageDataStart rg W E i) (pageDataEnd rg W E i) st).1.used) with
      e2 | ⟨it2, ub2⟩ <;> rfl
  · intro st e hff hdes hno
    simp only [readerStepCore, hff, hdes, Bool.false_eq_true, if_false]
    rw [if_neg hno]
  · intro fuel st e ops hstep
    simp only [readerRun, hstep]
  · simp only [read_page_items]
    exact readsInZone_append (initReader_zone f _ _)
      (readerRun_zone codec W f _ _ _ _ (initReader_wf f _ _))

/-- Witness for C8 on `pOpenFlash` page 0 (data zone `[1, 7)`): the first
pull of the iterator does not finish (the window holds a record); a state
whose window holds a truncated record with one byte already consumed
compacts and then fails with an item error that ends the sequence; and the
reads of the whole page stream stay inside the data zone. -/
theorem claim_C8_witness :
    ((readerStep mockCodec 1 pOpenFlash (pageDataStart ⟨0, 16⟩ 1 8 0)
        (pageDataEnd ⟨0, 16⟩ 1 8 0)
        ⟨flashRead pOpenFlash 1 6 ++ List.replicate 506 0xFF, 0, 0⟩).1 =
          (RStep.finished : RStep MockItem MockErr) ↔
      (((⟨flashRead pOpenFlash 1 6 ++ List.replicate 506 0xFF, 0, 0⟩ : RState)).buf.drop
        0).all (fun b => b == 0xFF) = true) ∧
    (readerStepCore mockCodec 1 pOpenFlash (pageDataStart ⟨0, 16⟩ 1 8 0)
        (pageDataEnd ⟨0, 16⟩ 1 8 0) ⟨[4, 250, 9], 1, 1⟩ =
      (RStep.failed (.Item .BufferTooSmall),
        (replenish pOpenFlash 1 7 (⟨[4, 250, 9], 1, 1⟩ : RState)).2)) ∧
    ((1 : Nat) ≤ 3 ∧ (3 : Nat) < 7) := by
  have h := claim_C8 mockCodec 1 8 pOpenFlash ⟨0, 16⟩ 0
  refine ⟨?_, ?_, ?_⟩
  · have ha := h.1 ⟨flashRead pOpenFlash 1 6 ++ List.replicate 506 0xFF, 0, 0⟩
    simpa using ha
  · have hb := h.2.1 ⟨[4, 250, 9], 1, 1⟩ .BufferTooSmall (by decide) (by rfl)
      (by decide) (by decide)
    rw [hb]
    rfl
  · exact h.2.2.2.2 1 6 (by decide) 3 (by decide) (by decide)

theorem wind_length (page : List Nat) (b v : Nat) : (wind page b v).length = v := by
  simp [wind]

theorem wind_getElem? (page : List Nat) (b v i : Nat) :
    (wind page b v)[i]? = if i < v then some (page.getD (b + i) 0xFF) else none := by
  unfold wind
  rw [List.getElem?_take]
  by_cases hi : i < v
  · simp only [hi, if_true]
    rw [List.getElem?_append]
    by_cases hp : b + i < page.length
    · rw [if_pos (by simp; omega), List.getElem?_drop,
        List.getD_eq_getElem _ _ (by omega)]
      rw [List.getElem?_eq_getElem (by omega)]
    · rw [if_neg (by simp; omega), List.length_drop, List.getElem?_replicate,
        if_pos (by omega)]
      rw [List.getD_eq_default _ _ (by omega)]
  · simp [hi]

theorem wind_getD (page : List Nat) (b v i : Nat) (hi : i < v) (d : Nat) :
    (wind page b v).getD i d = page.getD (b + i) 0xFF := by
  rw [List.getD_eq_getElem?_getD, wind_getElem?, if_pos hi]
  rfl

theorem wind_drop (page : List Nat) (b v u : Nat) :
    (wind page b v).drop u = wind page (b + u) (v - u) := by
  apply List.ext_getElem?
  intro n
  rw [List.getElem?_drop, wind_getElem?, wind_getElem?]
  by_cases h : u + n < v
  · rw [if_pos h, if_pos (by omega)]
    congr 2
    omega
  · rw [if_neg h, if_neg (by omega)]

theorem flashRead_getD (f : Flash) (a n i : Nat) (d : Nat) :
    (flashRead f a n).getD i d = if i < n then f (a + i) else d := by
  unfold flashRead
  rw [List.getD_eq_getElem?_getD]
  by_cases hi : i < n
  · rw [List.getElem?_map, List.getElem?_range hi]
    simp [hi]
  · rw [List.getElem?_eq_none (by simp; omega)]
    simp [hi]

theorem flashRead_getElem? (f : Flash) (a n i : Nat) :
    (flashRead f a n)[i]? = if i < n then some (f (a + i)) else none := by
  unfold flashRead
  by_cases hi : i < n
  · rw [List.getElem?_map, List.getElem?_range hi]
    simp [hi]
  · rw [List.getElem?_eq_none (by simp; omega)]
    simp [hi]

theorem initReader_wind (f : Flash) (pds pde : Nat) :
    (initReader f pds pde).1 = ⟨wind (flashRead f pds (pde - pds)) 0 MAX_STORAGE_ITEM_SIZE, 0, 0⟩ := by
  unfold initReader
  simp only
  congr 1
  apply List.ext_getElem?
  intro n
  rw [wind_getElem?, List.getElem?_append, flashRead_getElem?, flashRead_length]
  by_cases h1 : n < min MAX_STORAGE_ITEM_SIZE (pde - pds)
  · rw [if_pos h1, if_pos (by omega), if_pos (by omega)]
    rw [flashRead_getD, if_pos (by omega)]
    simp
  · rw [if_neg h1, List.getElem?_replicate]
    by_cases h2 : n < MAX_STORAGE_ITEM_SIZE
    · rw [if_pos (by omega), if_pos h2]
      rw [List.getD_eq_default _ _ (by rw [flashRead_length]; omega)]
    · rw [if_neg (by omega), if_neg h2]

theorem replenish_wind (f : Flash) (pds pde b u : Nat) (hu : u ≤ MAX_STORAGE_ITEM_SIZE) :
    (replenish f pds pde
      ⟨wind (flashRead f pds (pde - pds)) b MAX_STORAGE_ITEM_SIZE, u, b + u⟩).1 =
      ⟨wind (flashRead f pds (pde - pds)) (b + u) MAX_STORAGE_ITEM_SIZE, 0, b + u⟩ := by
  unfold replenish
  simp only
  congr 1
  rw [wind_drop]
  apply List.ext_getElem?
  intro n
  by_cases h1 : n < MAX_STORAGE_ITEM_SIZE - u
  · rw [List.getElem?_append_left (by
      rw [List.length_append, wind_length, flashRead_length]; omega)]
    rw [List.getElem?_append_left (by rw [wind_length]; omega)]
    rw [wind_getElem?, if_pos h1, wind_getElem?, if_pos (by omega)]
  · by_cases h2 : n - (MAX_STORAGE_ITEM_SIZE - u) <
        min (pde - (pds + (b + u) + MAX_STORAGE_ITEM_SIZE - u)) u
    · rw [List.getElem?_append_left (by
        rw [List.length_append, wind_length, flashRead_length]; omega)]
      rw [List.getElem?_append_right (by rw [wind_length]; omega)]
      rw [wind_length, flashRead_getElem?, if_pos h2]
      rw [wind_getElem?, if_pos (by omega)]
      rw [flashRead_getD, if_pos (by omega)]
      congr 2
      omega
    · rw [List.getElem?_append_right (by
        rw [List.length_append, wind_length, flashRead_length]; omega)]
      rw [List.length_append, wind_length, flashRead_length, List.getElem?_replicate]
      rw [wind_getElem?]
      by_cases h3 : n < MAX_STORAGE_ITEM_SIZE
      · rw [if_pos (by omega), if_pos h3]
        rw [flashRead_getD, if_neg (by omega)]
      · rw [if_neg (by omega), if_neg h3]

theorem wind_suffix_ge (page raw post : List Nat) (s v : Nat)
    (hdrop : page.drop s = raw ++ post) (hv : raw.length ≤ v) :
    ∃ rest, wind page s v = raw ++ rest := by
  unfold wind
  rw [hdrop, List.append_assoc, List.take_append_eq_append_take,
    List.take_of_length_le (by omega)]
  exact ⟨_, rfl⟩

theorem wind_suffix_lt (page raw post : List Nat) (s v : Nat)
    (hdrop : page.drop s = raw ++ post) (hv : v < raw.length) :
    wind page s v = raw.take v := by
  unfold wind
  rw [hdrop, List.append_assoc, List.take_append_eq_append_take]
  rw [show v - raw.length = 0 by omega]
  simp

theorem wind_allFF (page : List Nat) (s v k : Nat)
    (hdrop : page.drop s = List.replicate k 0xFF) :
    ((wind page s v).all fun b => b == 0xFF) = true := by
  rw [List.all_eq_true]
  intro x hx
  obtain ⟨i, hi⟩ := List.mem_iff_getElem?.mp hx
  rw [wind_getElem?] at hi
  by_cases hv : i < v
  · rw [if_pos hv] at hi
    injection hi with hi
    subst hi
    by_cases hp : s + i < page.length
    · have : page.getD (s + i) 0xFF = (page.drop s).getD i 0xFF := by
        rw [List.getD_eq_getElem?_getD, List.getD_eq_getElem?_getD, List.getElem?_drop]
      rw [this, hdrop, List.getD_eq_getElem?_getD, List.getElem?_replicate]
      split <;> simp
    · rw [List.getD_eq_default _ _ (by omega)]
      simp
  · rw [if_neg hv] at hi
    exact absurd hi (by simp)

theorem wind_not_allFF (page : List Nat) (s v : Nat) (h0 : Nat) (t post : List Nat)
    (hdrop : page.drop s = (h0 :: t) ++ post) (hne : h0 ≠ 0xFF) (hv : 0 < v) :
    ((wind page s v).all fun b => b == 0xFF) = false := by
  rw [List.all_eq_false]
  refine ⟨h0, ?_, by simpa using hne⟩
  rw [List.mem_iff_getElem?]
  refine ⟨0, ?_⟩
  rw [wind_getElem?, if_pos hv]
  congr 1
  have : page.getD (s + 0) 0xFF = (page.drop s).getD 0 0xFF := by
    rw [List.getD_eq_getElem?_getD, List.getD_eq_getElem?_getD, List.getElem?_drop]
  rw [this, hdrop]
  rfl

theorem roundUp_ge (W n : Nat) : n ≤ roundUp W n := by
  unfold roundUp
  split <;> omega

theorem roundUp_dvd (W n : Nat) (hW : 0 < W) : W ∣ roundUp W n := by
  unfold roundUp
  split
  · next h =>
    refine ⟨n / W + 1, ?_⟩
    have hm := Nat.div_add_mod n W
    have hmul : W * (n / W + 1) = W * (n / W) + W := by ring
    have hlt := Nat.mod_lt n hW
    omega
  · next h =>
    refine ⟨n / W, ?_⟩
    have hm := Nat.div_add_mod n W
    omega

theorem roundUp_lt_add (W n : Nat) (hW : 0 < W) : roundUp W n ≤ n + W - 1 := by
  unfold roundUp
  split
  · next hmod =>
    have := Nat.mod_lt n hW
    omega
  · omega

theorem roundUp_le_of_dvd (W n m : Nat) (hW : 0 < W) (hd : W ∣ m) (h : n ≤ m) :
    roundUp W n ≤ m := by
  obtain ⟨c, rfl⟩ := hd
  obtain ⟨d, hrd⟩ := roundUp_dvd W n hW
  have hub : roundUp W n ≤ n + W - 1 := roundUp_lt_add W n hW
  by_contra hc
  push_neg at hc
  rw [hrd] at hc hub
  have hcd : c < d := by
    by_contra hdc
    push_neg at hdc
    exact absurd (Nat.mul_le_mul_left W hdc) (by omega)
  have hle : W * (c + 1) ≤ W * d := Nat.mul_le_mul_left W hcd
  have hWc1 : W * (c + 1) = W * c + W := by ring
  omega

theorem recBytes_length {I : Type} (W : Nat) (r : I × List Nat) :
    (recBytes W r).length = roundUp W r.2.length := by
  simp only [recBytes, List.length_append, List.length_replicate]
  have := roundUp_ge W r.2.length
  omega

theorem recBytes_pos {I : Type} (W : Nat) (r : I × List Nat) (h : r.2 ≠ []) :
    0 < (recBytes W r).length := by
  rw [recBytes_length]
  have h1 : 0 < r.2.length := List.length_pos.mpr h
  have := roundUp_ge W r.2.length
  omega

theorem readerStepCore_yield {I K CErr : Type} (codec : StorageCodec I K CErr)
    (W : Nat) (f : Flash) (pds pde : Nat) (hW : 0 < W)
    (hWM : W ∣ MAX_STORAGE_ITEM_SIZE) (b s : Nat) (hbs : b ≤ s)
    (hub : s - b < MAX_STORAGE_ITEM_SIZE) (hdvd : W ∣ (s - b))
    (r : I × List Nat) (post : List Nat) (hgood : GoodRec codec W r)
    (htail : (flashRead f pds (pde - pds)).drop s = recBytes W r ++ post) :
    ∃ b2 ops, b2 ≤ s ∧ W ∣ (s - b2) ∧
      (s - b2) + roundUp W r.2.length ≤ MAX_STORAGE_ITEM_SIZE ∧
      readerStepCore codec W f pds pde
        ⟨wind (flashRead f pds (pde - pds)) b MAX_STORAGE_ITEM_SIZE, s - b, s⟩ =
        (.yielded r.1 (pds + s) (roundUp W r.2.length)
          ⟨wind (flashRead f pds (pde - pds)) b2 MAX_STORAGE_ITEM_SIZE,
            (s - b2) + roundUp W r.2.length, s + roundUp W r.2.length⟩, ops) := by
  obtain ⟨h0, t, hr2⟩ : ∃ h0 t, r.2 = h0 :: t := by
    cases hx : r.2 with
    | nil => exact absurd hx hgood.ne_nil
    | cons a l => exact ⟨a, l, rfl⟩
  have hne : h0 ≠ 0xFF := hgood.head_ne h0 (by rw [hr2]; rfl)
  have hraw : (flashRead f pds (pde - pds)).drop s =
      r.2 ++ (List.replicate (roundUp W r.2.length - r.2.length) 0xFF ++ post) := by
    rw [← List.append_assoc]
    exact htail
  have hdropW : (wind (flashRead f pds (pde - pds)) b MAX_STORAGE_ITEM_SIZE).drop (s - b) =
      wind (flashRead f pds (pde - pds)) s (MAX_STORAGE_ITEM_SIZE - (s - b)) := by
    rw [wind_drop, show b + (s - b) = s from by omega]
  have hvpos : 0 < MAX_STORAGE_ITEM_SIZE - (s - b) := by omega
  have hffF : (((wind (flashRead f pds (pde - pds)) b MAX_STORAGE_ITEM_SIZE).drop
      (s - b)).all fun x => x == 0xFF) = false := by
    rw [hdropW]
    refine wind_not_allFF _ s _ h0 (t ++ List.replicate (roundUp W r.2.length - r.2.length) 0xFF)
      post ?_ hne hvpos
    rw [htail, recBytes, hr2]
    simp
  by_cases hfit : r.2.length ≤ MAX_STORAGE_ITEM_SIZE - (s - b)
  · obtain ⟨rest, hwr⟩ := wind_suffix_ge (flashRead f pds (pde - pds)) r.2 _ s
      (MAX_STORAGE_ITEM_SIZE - (s - b)) hraw hfit
    refine ⟨b, [], hbs, hdvd, ?_, ?_⟩
    · have hdv : W ∣ (MAX_STORAGE_ITEM_SIZE - (s - b)) := Nat.dvd_sub' hWM hdvd
      have := roundUp_le_of_dvd W r.2.length (MAX_STORAGE_ITEM_SIZE - (s - b)) hW hdv hfit
      omega
    · simp only [readerStepCore, hffF, Bool.false_eq_true, if_false]
      rw [hdropW, hwr, hgood.deser_ok rest]
  · push_neg at hfit
    obtain ⟨e, hde, hbts⟩ := hgood.deser_cut (MAX_STORAGE_ITEM_SIZE - (s - b)) hfit
    have hcut : wind (flashRead f pds (pde - pds)) s (MAX_STORAGE_ITEM_SIZE - (s - b)) =
        r.2.take (MAX_STORAGE_ITEM_SIZE - (s - b)) :=
      wind_suffix_lt _ r.2 _ s _ hraw hfit
    have hused : 0 < s - b := by
      by_contra hz
      push_neg at hz
      have : r.2.length ≤ MAX_STORAGE_ITEM_SIZE := by
        have := roundUp_ge W r.2.length
        have := hgood.le_max
        omega
      omega
    have hrep := replenish_wind f pds pde b (s - b) (le_of_lt hub)
    rw [show b + (s - b) = s from by omega] at hrep
    obtain ⟨rest2, hwr2⟩ := wind_suffix_ge (flashRead f pds (pde - pds)) r.2 _ s
      MAX_STORAGE_ITEM_SIZE hraw (by
        have := roundUp_ge W r.2.length
        have := hgood.le_max
        omega)
    refine ⟨s, (replenish f pds pde
      ⟨wind (flashRead f pds (pde - pds)) b MAX_STORAGE_ITEM_SIZE, s - b, s⟩).2,
      le_refl s, by simp, ?_, ?_⟩
    · have := hgood.le_max
      omega
    · simp only [readerStepCore, hffF, Bool.false_eq_true, if_false]
      rw [hdropW, hcut, hde]
      dsimp only
      rw [if_pos ⟨hbts, hused⟩]
      rw [hrep]
      simp only [List.drop_zero]
      rw [hwr2, hgood.deser_ok rest2]
      simp [Nat.sub_self]

theorem recsBytes_cons {I : Type} (W : Nat) (r : I × List Nat)
    (rest : List (I × List Nat)) :
    recsBytes W (r :: rest) = recBytes W r ++ recsBytes W rest := by
  simp [recsBytes]

theorem length_le_recsBytes {I : Type} (W : Nat) :
    ∀ (rs : List (I × List Nat)), (∀ r ∈ rs, r.2 ≠ []) →
      rs.length ≤ (recsBytes W rs).length := by
  intro rs
  induction rs with
  | nil => intro _; simp [recsBytes]
  | cons r rest ih =>
    intro h
    rw [recsBytes_cons, List.length_append, List.length_cons]
    have h1 := recBytes_pos W r (h r (List.mem_cons_self r rest))
    have h2 := ih fun x hx => h x (List.mem_cons_of_mem r hx)
    omega

theorem readerStep_yield {I K CErr : Type} (codec : StorageCodec I K CErr)
    (W : Nat) (f : Flash) (pds pde : Nat) (hW : 0 < W)
    (hWM : W ∣ MAX_STORAGE_ITEM_SIZE) (b s : Nat) (hbs : b ≤ s)
    (hsb : s - b ≤ MAX_STORAGE_ITEM_SIZE) (hdvd : W ∣ (s - b))
    (r : I × List Nat) (post : List Nat) (hgood : GoodRec codec W r)
    (htail : (flashRead f pds (pde - pds)).drop s = recBytes W r ++ post) :
    ∃ b2 ops, b2 ≤ s ∧ W ∣ (s - b2) ∧
      (s - b2) + roundUp W r.2.length ≤ MAX_STORAGE_ITEM_SIZE ∧
      readerStep codec W f pds pde
        ⟨wind (flashRead f pds (pde - pds)) b MAX_STORAGE_ITEM_SIZE, s - b, s⟩ =
        (.yielded r.1 (pds + s) (roundUp W r.2.length)
          ⟨wind (flashRead f pds (pde - pds)) b2 MAX_STORAGE_ITEM_SIZE,
            (s - b2) + roundUp W r.2.length, s + roundUp W r.2.length⟩, ops) := by
  by_cases heq : s - b = MAX_STORAGE_ITEM_SIZE
  · have hrep := replenish_wind f pds pde b (s - b) (le_of_eq heq)
    rw [show b + (s - b) = s from by omega] at hrep
    obtain ⟨b2, ops2, hb2, hdvd2, hle2, hcore⟩ := readerStepCore_yield codec W f pds pde
      hW hWM s s (le_refl s) (by simp [MAX_STORAGE_ITEM_SIZE]) (by simp) r post hgood htail
    have hss : s - s = 0 := by omega
    rw [hss] at hcore
    refine ⟨b2, (replenish f pds pde
      ⟨wind (flashRead f pds (pde - pds)) b MAX_STORAGE_ITEM_SIZE, s - b, s⟩).2 ++ ops2,
      hb2, hdvd2, hle2, ?_⟩
    simp only [readerStep, wind_length, if_pos heq]
    rw [hrep, hcore]
  · obtain ⟨b2, ops2, hb2, hdvd2, hle2, hcore⟩ := readerStepCore_yield codec W f pds pde
      hW hWM b s hbs (by omega) hdvd r post hgood htail
    refine ⟨b2, ops2, hb2, hdvd2, hle2, ?_⟩
    simp only [readerStep, wind_length, if_neg heq]
    rw [hcore]
    simp

theorem readerStepCore_done {I K CErr : Type} (codec : StorageCodec I K CErr)
    (W : Nat) (f : Flash) (pds pde : Nat) (b s k : Nat)
    (htail : (flashRead f pds (pde - pds)).drop s = List.replicate k 0xFF) :
    readerStepCore codec W f pds pde
      ⟨wind (flashRead f pds (pde - pds)) b MAX_STORAGE_ITEM_SIZE, s - b, s⟩ =
      ((.finished : RStep I CErr), []) := by
  have hff : (((wind (flashRead f pds (pde - pds)) b MAX_STORAGE_ITEM_SIZE).drop
      (s - b)).all fun x => x == 0xFF) = true := by
    by_cases hbs : b ≤ s
    · rw [wind_drop, show b + (s - b) = s from by omega]
      exact wind_allFF _ s _ k htail
    · have h0 : s - b = 0 := by omega
      rw [wind_drop, h0]
      refine wind_allFF _ (b + 0) _ (k - (b - s)) ?_
      rw [show b + 0 = s + (b - s) from by omega, ← List.drop_drop, htail]
      rw [List.drop_replicate]
  simp only [readerStepCore, hff, if_true]

theorem readerStep_done {I K CErr : Type} (codec : StorageCodec I K CErr)
    (W : Nat) (f : Flash) (pds pde : Nat) (b s k : Nat) (hbs : b ≤ s)
    ( _hsb : s - b ≤ MAX_STORAGE_ITEM_SIZE)
    (htail : (flashRead f pds (pde - pds)).drop s = List.replicate k 0xFF) :
    ∃ ops, readerStep codec W f pds pde
      ⟨wind (flashRead f pds (pde - pds)) b MAX_STORAGE_ITEM_SIZE, s - b, s⟩ =
      ((.finished : RStep I CErr), ops) := by
  by_cases heq : s - b = MAX_STORAGE_ITEM_SIZE
  · have hrep := replenish_wind f pds pde b (s - b) (le_of_eq heq)
    rw [show b + (s - b) = s from by omega] at hrep
    refine ⟨(replenish f pds pde
      ⟨wind (flashRead f pds (pde - pds)) b MAX_STORAGE_ITEM_SIZE, s - b, s⟩).2 ++ [], ?_⟩
    simp only [readerStep, wind_length, if_pos heq]
    rw [hrep]
    have hc := readerStepCore_done codec W f pds pde s s k htail
    rw [show s - s = 0 from by omega] at hc
    rw [hc]
  · refine ⟨[] ++ [], ?_⟩
    simp only [readerStep, wind_length, if_neg heq]
    rw [readerStepCore_done codec W f pds pde b s k htail]

theorem readerRun_correct {I K CErr : Type} (codec : StorageCodec I K CErr)
    (W : Nat) (f : Flash) (pds pde : Nat) (hW : 0 < W)
    (hWM : W ∣ MAX_STORAGE_ITEM_SIZE) :
    ∀ (rem : List (I × List Nat)) (fuel b s : Nat), b ≤ s →
      s - b ≤ MAX_STORAGE_ITEM_SIZE → W ∣ (s - b) →
      (flashRead f pds (pde - pds)).drop s =
        recsBytes W rem ++
          List.replicate ((pde - pds) - s - (recsBytes W rem).length) 0xFF →
      (∀ r ∈ rem, GoodRec codec W r) →
      rem.length < fuel →
      ∃ ops, readerRun codec W f pds pde fuel
        ⟨wind (flashRead f pds (pde - pds)) b MAX_STORAGE_ITEM_SIZE, s - b, s⟩ =
        (recTuples W (pds + s) rem, .done, ops) := by
  intro rem
  induction rem with
  | nil =>
    intro fuel b s hbs hsb hdvd htail hgood hfuel
    match fuel, hfuel with
    | fuel + 1, _ =>
      obtain ⟨ops, hstep⟩ := readerStep_done codec W f pds pde b s _ hbs hsb
        (by simpa [recsBytes] using htail)
      refine ⟨ops, ?_⟩
      simp only [readerRun, hstep]
      rfl
  | cons r rest ih =>
    intro fuel b s hbs hsb hdvd htail hgood hfuel
    match fuel, hfuel with
    | fuel + 1, hf =>
      rw [recsBytes_cons, List.append_assoc] at htail
      obtain ⟨b2, ops2, hb2, hdvd2, hle2, hstep⟩ := readerStep_yield codec W f pds pde
        hW hWM b s hbs hsb hdvd r _ (hgood r (List.mem_cons_self r rest)) htail
      have htail2 : (flashRead f pds (pde - pds)).drop (s + roundUp W r.2.length) =
          recsBytes W rest ++
            List.replicate ((pde - pds) - (s + roundUp W r.2.length) -
              (recsBytes W rest).length) 0xFF := by
        rw [← List.drop_drop, htail,
          show roundUp W r.2.length = (recBytes W r).length from (recBytes_length W r).symm,
          List.drop_left]
        congr 2
        simp only [List.length_append]
        omega
      have hulen : s + roundUp W r.2.length - b2 = (s - b2) + roundUp W r.2.length := by
        omega
      rw [show (s - b2) + roundUp W r.2.length =
        (s + roundUp W r.2.length) - b2 from by omega] at hstep
      have hb2a : b2 ≤ s + roundUp W r.2.length := by omega
      have hsb2 : s + roundUp W r.2.length - b2 ≤ MAX_STORAGE_ITEM_SIZE := by
        rw [hulen]
        exact hle2
      have hdvd2a : W ∣ s + roundUp W r.2.length - b2 := by
        rw [hulen]
        exact Nat.dvd_add hdvd2 (roundUp_dvd W _ hW)
      obtain ⟨ops3, hrun⟩ := ih fuel b2 (s + roundUp W r.2.length) hb2a hsb2 hdvd2a
        htail2 (fun x hx => hgood x (List.mem_cons_of_mem r hx)) (by
          simp only [List.length_cons] at hf
          omega)
      rw [show pds + (s + roundUp W r.2.length) =
        pds + s + roundUp W r.2.length from by omega] at hrun
      refine ⟨ops2 ++ ops3, ?_⟩
      simp only [readerRun, hstep]
      rw [hrun]
      simp only [recTuples]

theorem read_page_items_correct {I K CErr : Type} (codec : StorageCodec I K CErr)
    (W E : Nat) (f : Flash) (rg : FRange) (i : Nat) (rs : List (I × List Nat))
    (hW : 0 < W) (hWM : W ∣ MAX_STORAGE_ITEM_SIZE)
    (hrep : PageRep codec W E f rg i rs) :
    ∃ ops, read_page_items codec W E f rg i =
      (recTuples W (pageDataStart rg W E i) rs, .done, ops) := by
  obtain ⟨hlen, hbytes, hgood⟩ := hrep
  have htail : (flashRead f (pageDataStart rg W E i)
      (pageDataEnd rg W E i - pageDataStart rg W E i)).drop 0 =
      recsBytes W rs ++
        List.replicate ((pageDataEnd rg W E i - pageDataStart rg W E i) - 0 -
          (recsBytes W rs).length) 0xFF := by
    rw [List.drop_zero, hbytes, Nat.sub_zero]
  have hcount : rs.length < readerFuel rg W E i := by
    have h1 := length_le_recsBytes W rs (fun r hr => (hgood r hr).ne_nil)
    unfold readerFuel
    omega
  obtain ⟨ops, hrun⟩ := readerRun_correct codec W f (pageDataStart rg W E i)
    (pageDataEnd rg W E i) hW hWM rs (readerFuel rg W E i) 0 0 (le_refl 0)
    (by simp) (by simp) htail hgood hcount
  rw [show (0 : Nat) - 0 = 0 from rfl, Nat.add_zero] at hrun
  simp only [read_page_items, initReader_wind]
  rw [hrun]
  exact ⟨_, rfl⟩


/-- Claim C1 (latest value wins: after a sequence of successful `store_item`
calls, `fetch_item k` returns the value of the last stored item with key
`k`).  The claim is refuted by this concrete execution (write size 1, erase
size 8, four pages, the test suite's codec).  All six stores succeed; the
last store with key 5 stored the value `[7, 9]`; yet the subsequent fetch of
key 5 returns the never-stored item `⟨5, [255, 255]⟩`.  The cause is the
migration loop of `store_item_inner` (source lines 274-310): for each item
streamed from the buffer page it copies the newest record of that item's
key, so a key occurring twice on the buffer page has its newest record
copied twice; the copies overflow the target page's data zone into its
footer word, the freshly rotated page reads as Closed instead of
Partial-Open, and a later fetch deserializes the truncated tail record
together with the erased 0xFF bytes that follow it. -/
theorem claim_C1 :
    lookupLast MockItem.key 5
        [⟨1, [3, 4, 5, 6]⟩, ⟨5, []⟩, ⟨5, [7, 9]⟩, ⟨6, []⟩, ⟨6, [8, 8]⟩, ⟨7, []⟩] =
      some ⟨5, [7, 9]⟩ ∧
    (storeSeq mockCodec 1 8 1 ⟨0, 32⟩
          [⟨1, [3, 4, 5, 6]⟩, ⟨5, []⟩, ⟨5, [7, 9]⟩, ⟨6, []⟩, ⟨6, [8, 8]⟩, ⟨7, []⟩]
          freshFlash).map
        (fun f => (fetch_item mockCodec 1 8 1 f ⟨0, 32⟩ 5).map (fun r => r.1)) =
      some (some (.ok (some ⟨5, [255, 255]⟩))) ∧
    (⟨5, [255, 255]⟩ : MockItem) ≠ ⟨5, [7, 9]⟩ :=
  ⟨by rfl, by rfl, by decide⟩

/-- Claim C3 (`store_item` returns `FullStorage` exactly when the recursion
depth reaches the page count; the item is then not written and every
previously stored key's latest value remains returned by `fetch_item`).
The preservation part is refuted by this concrete execution (write size 1,
erase size 16, two pages, the test suite's codec).  Four stores of key 1
succeed, the last with value `[6, 6]`; the fifth store returns
`FullStorage`; but fetching key 1 afterwards returns the never-stored item
`⟨1, [255, 255]⟩` instead of `⟨1, [6, 6]⟩`.  The rotation inside the failing
store migrates the four key-1 records of the closed page by copying the
newest record four times (source lines 274-310), overflowing the target
page's data zone into its footer word; the target page therefore reads as
Closed instead of Partial-Open, the next recursion level rotates again, the
depth guard fires, and the flash is left with the corrupted page holding a
truncated record that deserializes against the erased 0xFF tail. -/
theorem claim_C3 :
    lookupLast MockItem.key 1 [⟨1, []⟩, ⟨1, [7, 9]⟩, ⟨1, [8, 9]⟩, ⟨1, [6, 6]⟩] =
      some ⟨1, [6, 6]⟩ ∧
    (storeSeq mockCodec 1 16 1 ⟨0, 32⟩
          [⟨1, []⟩, ⟨1, [7, 9]⟩, ⟨1, [8, 9]⟩, ⟨1, [6, 6]⟩] freshFlash).map
        (fun f => (store_item mockCodec 1 16 1 f ⟨0, 32⟩ ⟨2, []⟩).map
          (fun r =>
            (r.1, (fetch_item mockCodec 1 16 1 r.2.1 ⟨0, 32⟩ 1).map (fun q => q.1)))) =
      some (some (.error .FullStorage,
        some (.ok (some ⟨1, [255, 255]⟩)))) ∧
    (⟨1, [255, 255]⟩ : MockItem) ≠ ⟨1, [6, 6]⟩ :=
  ⟨by rfl, by rfl, by decide⟩

end SeqStorage
